import Mathlib

/-!
# Fixed-point bilinear interpolation reference model

A shallow embedding of the C++ reference model (`FixedPoint.h`, `MemoryBank.h`,
`Registers.h`, `BilinearInterpolator.cpp`, `test/main_test.cpp`).

Conventions of the embedding.

* Machine integers are `Nat`/`Int` with the narrowing written out:
  `toInt16`, `toInt32`, `toUInt8`, `toUInt32`, and `% 2^64` on the counters.
* `float` and `double` values are the rationals they denote.  `toFloat32` and
  `toFloat64` round a rational to the nearest value with a 24 bit, respectively
  53 bit, significand (ties to even); exponent range, infinities and NaN are not
  modelled.  Multiplying a float by the power of two `256` is exact and carries
  no rounding step.
* Conversions whose C++ behaviour is undefined when the value does not fit
  (float to `int16_t`, float to `int`, signed overflow) wrap in the model, and
  an out-of-range vector access reads `0` or writes nothing, so that every
  function is total.
* Console output is not modelled; the `verbose` flag is carried and ignored.
* The loop state of `processSequential` carries a history `progressLog` of the
  arguments of its `status.setProgress` calls, in call order; no statement of the
  program reads it.
-/

namespace Bilinear

/-! ## Machine integers -/

/-- Narrowing to `int16_t` (two's complement). -/
def toInt16 (z : Int) : Int := (z + 32768) % 65536 - 32768

/-- Narrowing to `int32_t` (two's complement). -/
def toInt32 (z : Int) : Int := (z + 2147483648) % 4294967296 - 2147483648

/-- Narrowing to `uint8_t`. -/
def toUInt8 (z : Int) : Nat := (z % 256).toNat

/-- Narrowing to `uint32_t`. -/
def toUInt32 (z : Int) : Nat := (z % 4294967296).toNat

/-- Narrowing to `uint16_t`. -/
def toUInt16 (z : Int) : Nat := (z % 65536).toNat

/-- The modulus of `uint32_t` arithmetic. -/
def U32 : Nat := 4294967296

/-- The modulus of `uint64_t` arithmetic. -/
def U64 : Nat := 18446744073709551616

/-! ## Floating point values -/

/-- Nearest integer, ties to the even one. -/
def roundHalfEven (q : ℚ) : Int :=
  let f := ⌊q⌋
  let r := q - f
  if r < 1 / 2 then f else if 1 / 2 < r then f + 1 else if f % 2 = 0 then f else f + 1

/-- Round to the nearest rational with a significand of `p` bits, ties to even. -/
def roundToPrec (p : Nat) (q : ℚ) : ℚ :=
  if q = 0 then 0 else
    let ulp : ℚ := (2 : ℚ) ^ (Int.log 2 |q| - ((p : Int) - 1))
    (roundHalfEven (q / ulp) : ℚ) * ulp

/-- Rounding to `float` (binary32). -/
def toFloat32 (q : ℚ) : ℚ := roundToPrec 24 q

/-- Rounding to `double` (binary64). -/
def toFloat64 (q : ℚ) : ℚ := roundToPrec 53 q

/-- Conversion of a floating value to an integer: the fraction is discarded
(truncation toward zero). -/
def truncQ (q : ℚ) : Int := if 0 ≤ q then ⌊q⌋ else ⌈q⌉

/-! ## FixedPoint.h -/

/-- Q8.8 value: `value` is the `int16_t` raw representation. -/
structure FixedPoint where
  value : Int
deriving DecidableEq

namespace FixedPoint

/-- The constant `FRACTIONAL_BITS`. -/
def FRACTIONAL_BITS : Nat := 8

/-- Member `fromInt`: `static_cast<int16_t>(integer_part << FRACTIONAL_BITS)`. -/
def fromInt (integer_part : Int) : FixedPoint :=
  ⟨toInt16 (toInt32 (integer_part * 2 ^ FRACTIONAL_BITS))⟩

/-- Member `fromFloat`: `static_cast<int16_t>(f * (1 << FRACTIONAL_BITS))`. -/
def fromFloat (f : ℚ) : FixedPoint :=
  ⟨toInt16 (truncQ (f * 2 ^ FRACTIONAL_BITS))⟩

/-- Member `getRaw`. -/
def getRaw (self : FixedPoint) : Int := self.value

/-- Member `toInt`: `value >> FRACTIONAL_BITS` (arithmetic shift). -/
def toInt (self : FixedPoint) : Int := self.value >>> FRACTIONAL_BITS

/-- Member `operator-`: the `int` difference narrowed by the `int16_t` constructor. -/
def sub (self other : FixedPoint) : FixedPoint :=
  ⟨toInt16 (self.value - other.value)⟩

/-- Member `operator+`: the `int` sum narrowed by the `int16_t` constructor. -/
def add (self other : FixedPoint) : FixedPoint :=
  ⟨toInt16 (self.value + other.value)⟩

/-- Member `operator*`: 32 bit product, arithmetic shift, the two saturation tests,
then the narrowing cast. -/
def mul (self other : FixedPoint) : FixedPoint :=
  let result : Int := toInt32 (self.value * other.value) >>> FRACTIONAL_BITS
  let result : Int := if result > 32767 then 32767 else result
  let result : Int := if result < -32768 then -32768 else result
  ⟨toInt16 result⟩

/-- Member `operator/`: the dividend shifted left in 32 bits, the truncating `int`
division, then the narrowing cast. A zero divisor is undefined in C++; `Int.tdiv`
gives 0 there. -/
def div (self other : FixedPoint) : FixedPoint :=
  let result : Int :=
    toInt32 (Int.tdiv (toInt32 (self.value * 2 ^ FRACTIONAL_BITS)) other.value)
  ⟨toInt16 result⟩

end FixedPoint

/-! ## MemoryBank.h -/

/-- The sample bank: `data` holds `uint8_t` samples, `width` and `height` are
`uint32_t`. -/
structure MemoryBank where
  data : List Nat
  width : Nat
  height : Nat
deriving DecidableEq

namespace MemoryBank

/-- The member function that loads the bank (`data = pixelData; width = w; height = h`). -/
def initialise (pixelData : List Nat) (w h : Nat) : MemoryBank :=
  { data := pixelData, width := w, height := h }

/-- Member `getWidth`. -/
def getWidth (self : MemoryBank) : Nat := self.width

/-- Member `getHeight`. -/
def getHeight (self : MemoryBank) : Nat := self.height

/-- The subscript `y * width + x` of `readPixel`, computed in `uint32_t`. -/
def offset (self : MemoryBank) (x y : Nat) : Nat := (y * self.width + x) % U32

/-- Member `readPixel`. -/
def readPixel (self : MemoryBank) (x y : Nat) : Nat :=
  if x ≥ self.width ∨ y ≥ self.height then 0
  else self.data.getD (self.offset x y) 0

end MemoryBank

/-! ## Registers.h -/

/-- Class `ConfigRegisters`. -/
structure ConfigRegisters where
  inputWidth : Nat
  inputHeight : Nat
  scaleFactor : Nat
deriving DecidableEq

namespace ConfigRegisters

/-- The constructor `ConfigRegisters()`. -/
def init : ConfigRegisters := { inputWidth := 0, inputHeight := 0, scaleFactor := 0 }

/-- Member `setImageSize`. -/
def setImageSize (self : ConfigRegisters) (width height : Nat) : ConfigRegisters :=
  { self with inputWidth := width, inputHeight := height }

/-- Member `setScaleFactor`: `static_cast<uint16_t>(scale * 256)`; the conversion
discards the fraction. -/
def setScaleFactor (self : ConfigRegisters) (scale : ℚ) : ConfigRegisters :=
  { self with scaleFactor := toUInt16 (truncQ (scale * 256)) }

/-- Member `getScaleFactorRaw`. -/
def getScaleFactorRaw (self : ConfigRegisters) : Nat := self.scaleFactor

end ConfigRegisters

/-- Class `StatusRegisters`. -/
structure StatusRegisters where
  busy : Bool
  ready : Bool
  progress : Nat
  errorCode : Nat
deriving DecidableEq

namespace StatusRegisters

/-- The constructor `StatusRegisters()`. -/
def init : StatusRegisters := { busy := false, ready := true, progress := 0, errorCode := 0 }

/-- Member `setBusy`. -/
def setBusy (self : StatusRegisters) (state : Bool) : StatusRegisters :=
  { self with busy := state, ready := !state }

/-- Member `setProgress`. -/
def setProgress (self : StatusRegisters) (value : Nat) : StatusRegisters :=
  { self with progress := value }

/-- Member `setError`. -/
def setError (self : StatusRegisters) (code : Nat) : StatusRegisters :=
  { self with errorCode := code }

/-- Member `isBusy`. -/
def isBusy (self : StatusRegisters) : Bool := self.busy

/-- Member `isReady`. -/
def isReady (self : StatusRegisters) : Bool := self.ready

/-- Member `getProgress`. -/
def getProgress (self : StatusRegisters) : Nat := self.progress

end StatusRegisters

/-- A call of one of the three setters of `StatusRegisters`. -/
inductive StatusCall where
  | setBusy (state : Bool)
  | setProgress (value : Nat)
  | setError (code : Nat)
deriving DecidableEq

/-- The effect of one setter call. -/
def StatusCall.run (s : StatusRegisters) : StatusCall → StatusRegisters
  | .setBusy state => s.setBusy state
  | .setProgress value => s.setProgress value
  | .setError code => s.setError code

/-- The status registers after a sequence of setter calls on a fresh object. -/
def StatusRegisters.afterCalls (calls : List StatusCall) : StatusRegisters :=
  calls.foldl StatusCall.run StatusRegisters.init

/-- Class `PerformanceCounters`: four `uint64_t` counters. -/
structure PerformanceCounters where
  flops : Nat
  memoryReads : Nat
  memoryWrites : Nat
  cycles : Nat
deriving DecidableEq

namespace PerformanceCounters

/-- Member `reset`. -/
def reset (_self : PerformanceCounters) : PerformanceCounters :=
  { flops := 0, memoryReads := 0, memoryWrites := 0, cycles := 0 }

/-- Member `incrementFlops`. -/
def incrementFlops (self : PerformanceCounters) (count : Nat) : PerformanceCounters :=
  { self with flops := (self.flops + count) % U64 }

/-- Member `incrementMemoryReads`. -/
def incrementMemoryReads (self : PerformanceCounters) (count : Nat) : PerformanceCounters :=
  { self with memoryReads := (self.memoryReads + count) % U64 }

/-- Member `incrementMemoryWrites`. -/
def incrementMemoryWrites (self : PerformanceCounters) (count : Nat) : PerformanceCounters :=
  { self with memoryWrites := (self.memoryWrites + count) % U64 }

/-- Member `incrementCycles`. -/
def incrementCycles (self : PerformanceCounters) (count : Nat) : PerformanceCounters :=
  { self with cycles := (self.cycles + count) % U64 }

/-- Member `getFlops`. -/
def getFlops (self : PerformanceCounters) : Nat := self.flops

/-- Member `getMemoryReads`. -/
def getMemoryReads (self : PerformanceCounters) : Nat := self.memoryReads

/-- Member `getMemoryWrites`. -/
def getMemoryWrites (self : PerformanceCounters) : Nat := self.memoryWrites

/-- Member `getCycles`. -/
def getCycles (self : PerformanceCounters) : Nat := self.cycles

end PerformanceCounters

/-! ## BilinearInterpolator.cpp -/

/-- The register groups a `BilinearInterpolator` holds references to. -/
structure BilinearInterpolator where
  config : ConfigRegisters
  status : StatusRegisters
  perfCounters : PerformanceCounters
deriving DecidableEq

/-- The local variables of `interpolatePixel` at its `return`; `interp_sum` is the
weighted sum after the saturation step. -/
structure InterpLocals where
  x0 : Int
  y0 : Int
  x1 : Int
  y1 : Int
  p00 : Nat
  p10 : Nat
  p01 : Nat
  p11 : Nat
  a : FixedPoint
  b : FixedPoint
  w00 : Int
  w10 : Int
  w01 : Int
  w11 : Int
  interp_sum : Int
deriving DecidableEq

namespace BilinearInterpolator

/-- The computation of `interpolatePixel` (lines 8-64), without the counters.
A product of two `int16_t` raw values fits 32 bits and is not narrowed; the 32 bit
sum of the four products is narrowed once, which is the same as narrowing after
every operation. -/
def interpolatePixel.locals (memory : MemoryBank) (x y : ℚ) : InterpLocals :=
  let x0 : Int := toInt32 ⌊x⌋
  let y0 : Int := toInt32 ⌊y⌋
  let x1 : Int := min (toInt32 (x0 + 1)) (toInt32 (toInt32 memory.getWidth - 1))
  let y1 : Int := min (toInt32 (y0 + 1)) (toInt32 (toInt32 memory.getHeight - 1))
  let x0 : Int := max 0 (min x0 (toInt32 (toInt32 memory.getWidth - 1)))
  let y0 : Int := max 0 (min y0 (toInt32 (toInt32 memory.getHeight - 1)))
  let p00 := memory.readPixel (toUInt32 x0) (toUInt32 y0)
  let p10 := memory.readPixel (toUInt32 x1) (toUInt32 y0)
  let p01 := memory.readPixel (toUInt32 x0) (toUInt32 y1)
  let p11 := memory.readPixel (toUInt32 x1) (toUInt32 y1)
  let x_weight_float : ℚ := toFloat32 (x - toFloat32 x0)
  let y_weight_float : ℚ := toFloat32 (y - toFloat32 y0)
  let a := FixedPoint.fromFloat x_weight_float
  let b := FixedPoint.fromFloat y_weight_float
  let one_fixed := FixedPoint.fromInt 1
  let w00 : Int := ((one_fixed.sub a).getRaw * (one_fixed.sub b).getRaw) >>> (8 : Nat)
  let w10 : Int := (a.getRaw * (one_fixed.sub b).getRaw) >>> (8 : Nat)
  let w01 : Int := ((one_fixed.sub a).getRaw * b.getRaw) >>> (8 : Nat)
  let w11 : Int := (a.getRaw * b.getRaw) >>> (8 : Nat)
  let interp_sum : Int :=
    toInt32 ((p00 : Int) * w00 + (p10 : Int) * w10 + (p01 : Int) * w01 + (p11 : Int) * w11)
      >>> (8 : Nat)
  let interp_sum : Int :=
    if interp_sum > 255 then 255 else if interp_sum < 0 then 0 else interp_sum
  { x0 := x0, y0 := y0, x1 := x1, y1 := y1, p00 := p00, p10 := p10, p01 := p01, p11 := p11,
    a := a, b := b, w00 := w00, w10 := w10, w01 := w01, w11 := w11, interp_sum := interp_sum }

/-- Member `interpolatePixel`: the returned `FixedPoint` and the registers afterwards. -/
def interpolatePixel (self : BilinearInterpolator) (memory : MemoryBank) (x y : ℚ)
    (_verbose : Bool) : FixedPoint × BilinearInterpolator :=
  let perf := self.perfCounters.incrementMemoryReads 4
  let perf := perf.incrementFlops 2
  let perf := perf.incrementFlops 4
  let perf := perf.incrementFlops 7
  (FixedPoint.fromInt (interpolatePixel.locals memory x y).interp_sum,
    { self with perfCounters := perf })

/-- The loop state of `processSequential`: the registers, the output vector and
the local `interpolationCount`. The field `progressLog` is a history, not a variable
of the program: the arguments of the calls `status.setProgress(...)` made since the
entry of `processSequential`, in the order of the calls. -/
structure ScanState where
  self : BilinearInterpolator
  outputPixels : List Nat
  interpolationCount : Nat
  progressLog : List Nat
deriving DecidableEq

/-- Standard `std::vector::resize(n)`: truncate, or pad with zero bytes. -/
def resize (v : List Nat) (n : Nat) : List Nat :=
  v.take n ++ List.replicate (n - v.length) 0

/-- The body of the inner loop of `processSequential` (lines 101-120). -/
def processSequential.body (inputMemory : MemoryBank) (x_ratio y_ratio : ℚ)
    (outputWidth totalPixels : Nat) (outY outX : Nat) (st : ScanState) : ScanState :=
  let self := st.self
  let self := { self with perfCounters := self.perfCounters.incrementCycles 1 }
  let src_x : ℚ := toFloat32 (toFloat64 (x_ratio * toFloat64 outX))
  let src_y : ℚ := toFloat32 (toFloat64 (y_ratio * toFloat64 outY))
  let self := { self with perfCounters := self.perfCounters.incrementFlops 2 }
  let verbose : Bool := if st.interpolationCount % 1000 ≠ 0 then false else true
  let r := self.interpolatePixel inputMemory src_x src_y verbose
  let interpolatedValue := r.1
  let self := r.2
  let interpolationCount := (st.interpolationCount + 1) % U32
  let pixelValue : Int := interpolatedValue.toInt
  let outputPixels := st.outputPixels.set ((outY * outputWidth + outX) % U32) (toUInt8 pixelValue)
  let self := { self with perfCounters := self.perfCounters.incrementMemoryWrites 1 }
  let currentPixel : Nat := (outY * outputWidth + outX + 1) % U32
  let r : BilinearInterpolator × List Nat :=
    if currentPixel % (totalPixels / 100 + 1) = 0 then
      ({ self with status := self.status.setProgress ((currentPixel * 100) % U32 / totalPixels) },
        st.progressLog ++ [(currentPixel * 100) % U32 / totalPixels])
    else (self, st.progressLog)
  { self := r.1, outputPixels := outputPixels, interpolationCount := interpolationCount,
    progressLog := r.2 }

/-- The statements of `processSequential` (lines 77-127): the state at the return,
with the history of the `setProgress` calls (the reset of line 78, the calls of the
loop, the final call of line 126). -/
def processSequential.run (self : BilinearInterpolator) (inputMemory : MemoryBank)
    (outputPixels : List Nat) (outputWidth outputHeight : Nat) : ScanState :=
  let self := { self with status := self.status.setBusy true }
  let self := { self with status := self.status.setProgress 0 }
  let self := { self with perfCounters := self.perfCounters.reset }
  let outputPixels := resize outputPixels ((outputWidth * outputHeight) % U32)
  let inputWidth := inputMemory.getWidth
  let inputHeight := inputMemory.getHeight
  let x_ratio : ℚ :=
    if outputWidth > 1 then
      toFloat64 (toFloat64 (((inputWidth + U32 - 1) % U32 : Nat) : ℚ)
        / toFloat64 ((outputWidth - 1 : Nat) : ℚ))
    else 0
  let y_ratio : ℚ :=
    if outputHeight > 1 then
      toFloat64 (toFloat64 (((inputHeight + U32 - 1) % U32 : Nat) : ℚ)
        / toFloat64 ((outputHeight - 1 : Nat) : ℚ))
    else 0
  let totalPixels := (outputWidth * outputHeight) % U32
  let st : ScanState :=
    { self := self, outputPixels := outputPixels, interpolationCount := 0, progressLog := [0] }
  let st := (List.range outputHeight).foldl
    (fun st outY => (List.range outputWidth).foldl
      (fun st outX =>
        processSequential.body inputMemory x_ratio y_ratio outputWidth totalPixels outY outX st)
      st)
    st
  let self := st.self
  let self := { self with status := self.status.setProgress 100 }
  let progressLog := st.progressLog ++ [100]
  let self := { self with status := self.status.setBusy false }
  { st with self := self, progressLog := progressLog }

/-- Member `processSequential`: the registers and the output vector at the return. -/
def processSequential (self : BilinearInterpolator) (inputMemory : MemoryBank)
    (outputPixels : List Nat) (outputWidth outputHeight : Nat) :
    BilinearInterpolator × List Nat :=
  ((processSequential.run self inputMemory outputPixels outputWidth outputHeight).self,
    (processSequential.run self inputMemory outputPixels outputWidth outputHeight).outputPixels)

/-- The ratio `x_ratio` (or `y_ratio`) of `processSequential` (lines 86-92) for the
input size `inSize` and the output size `outSize`. -/
def processSequential.ratio (inSize outSize : Nat) : ℚ :=
  if outSize > 1 then
    toFloat64 (toFloat64 (((inSize + U32 - 1) % U32 : Nat) : ℚ)
      / toFloat64 ((outSize - 1 : Nat) : ℚ))
  else 0

/-- The source coordinate `src_x` (or `src_y`) of `processSequential` (lines 103-104)
for a ratio and an output index. -/
def processSequential.src (ratio : ℚ) (out : Nat) : ℚ :=
  toFloat32 (toFloat64 (ratio * toFloat64 out))

/-- The value the loop body writes to the progress register at output sample
`(outX, outY)` (lines 117-120), if it writes one; `totalPixels` is the divisor. -/
def processSequential.progressWrite (outputWidth totalPixels outY outX : Nat) : Option Nat :=
  let currentPixel : Nat := (outY * outputWidth + outX + 1) % U32
  if currentPixel % (totalPixels / 100 + 1) = 0 then
    some ((currentPixel * 100) % U32 / totalPixels)
  else none

/-- The values written to the progress register by `processSequential`, in order:
the reset of line 78, the writes of the loop in row-major order, the final 100 of
line 126. -/
def processSequential.progressWrites (outputWidth outputHeight : Nat) : List Nat :=
  let totalPixels := (outputWidth * outputHeight) % U32
  [0] ++ (List.range outputHeight).flatMap (fun outY =>
      (List.range outputWidth).filterMap (fun outX =>
        processSequential.progressWrite outputWidth totalPixels outY outX))
    ++ [100]

end BilinearInterpolator

/-! ## test/main_test.cpp -/

/-- The four Q8.8 weights `w00, w10, w01, w11` of `bilinear_interpolate_q88`
(lines 9-17). -/
def bilinear_interpolate_q88.weights (a b : ℚ) : Int × Int × Int × Int :=
  let fp_a := FixedPoint.fromFloat a
  let fp_b := FixedPoint.fromFloat b
  let one_fixed := FixedPoint.fromInt 1
  let w00 : Int := ((one_fixed.sub fp_a).getRaw * (one_fixed.sub fp_b).getRaw) >>> (8 : Nat)
  let w10 : Int := (fp_a.getRaw * (one_fixed.sub fp_b).getRaw) >>> (8 : Nat)
  let w01 : Int := ((one_fixed.sub fp_a).getRaw * fp_b.getRaw) >>> (8 : Nat)
  let w11 : Int := (fp_a.getRaw * fp_b.getRaw) >>> (8 : Nat)
  (w00, w10, w01, w11)

/-- Function `bilinear_interpolate_q88`; the samples are `uint8_t` arguments. -/
def bilinear_interpolate_q88 (p00 p10 p01 p11 : Nat) (a b : ℚ) : Int :=
  let fp_a := FixedPoint.fromFloat a
  let fp_b := FixedPoint.fromFloat b
  let one_fixed := FixedPoint.fromInt 1
  let w00 : Int := ((one_fixed.sub fp_a).getRaw * (one_fixed.sub fp_b).getRaw) >>> (8 : Nat)
  let w10 : Int := (fp_a.getRaw * (one_fixed.sub fp_b).getRaw) >>> (8 : Nat)
  let w01 : Int := ((one_fixed.sub fp_a).getRaw * fp_b.getRaw) >>> (8 : Nat)
  let w11 : Int := (fp_a.getRaw * fp_b.getRaw) >>> (8 : Nat)
  let interp_sum : Int :=
    toInt32 ((p00 : Int) * w00 + (p10 : Int) * w10 + (p01 : Int) * w01 + (p11 : Int) * w11)
      >>> (8 : Nat)
  let interp_sum : Int := if interp_sum > 255 then 255 else interp_sum
  let interp_sum : Int := if interp_sum < 0 then 0 else interp_sum
  interp_sum

/-! ## The weighted sum as a function of the raw offsets -/

/-- The saturated weighted sum of four samples for raw Q8.8 offsets `a` and `b`:
the arithmetic shared by `interpolatePixel` and `bilinear_interpolate_q88`. -/
def satSum (p00 p10 p01 p11 : Nat) (a b : Int) : Int :=
  let s : Int := toInt32 ((p00 : Int) * ((toInt16 (256 - a) * toInt16 (256 - b)) >>> (8 : Nat))
    + (p10 : Int) * ((a * toInt16 (256 - b)) >>> (8 : Nat))
    + (p01 : Int) * ((toInt16 (256 - a) * b) >>> (8 : Nat))
    + (p11 : Int) * ((a * b) >>> (8 : Nat))) >>> (8 : Nat)
  if s > 255 then 255 else if s < 0 then 0 else s

/-- The weighted sum of line 40 of `interpolatePixel` (line 20 of the test), before
the saturation step, as a function of the four samples and the four weights. -/
def weightedSum (p00 p10 p01 p11 : Nat) (w00 w10 w01 w11 : Int) : Int :=
  toInt32 ((p00 : Int) * w00 + (p10 : Int) * w10 + (p01 : Int) * w01 + (p11 : Int) * w11)
    >>> (8 : Nat)

/-- The value of `interp_sum` in `interpolatePixel` after line 40, before the
saturation step of lines 60-64. -/
def BilinearInterpolator.interpolatePixel.unsaturated (memory : MemoryBank) (x y : ℚ) : Int :=
  weightedSum (BilinearInterpolator.interpolatePixel.locals memory x y).p00
    (BilinearInterpolator.interpolatePixel.locals memory x y).p10
    (BilinearInterpolator.interpolatePixel.locals memory x y).p01
    (BilinearInterpolator.interpolatePixel.locals memory x y).p11
    (BilinearInterpolator.interpolatePixel.locals memory x y).w00
    (BilinearInterpolator.interpolatePixel.locals memory x y).w10
    (BilinearInterpolator.interpolatePixel.locals memory x y).w01
    (BilinearInterpolator.interpolatePixel.locals memory x y).w11

/-- The value of `interp_sum` in `bilinear_interpolate_q88` after line 20, before the
saturation step of lines 23-24. -/
def bilinear_interpolate_q88.unsaturated (p00 p10 p01 p11 : Nat) (a b : ℚ) : Int :=
  weightedSum p00 p10 p01 p11 (bilinear_interpolate_q88.weights a b).1
    (bilinear_interpolate_q88.weights a b).2.1
    (bilinear_interpolate_q88.weights a b).2.2.1
    (bilinear_interpolate_q88.weights a b).2.2.2

/-- The byte `processSequential` stores for output sample `(outX, outY)`: the
sample coordinates, `interpolatePixel`, `toInt` and the narrowing to `uint8_t`
(lines 103-114). -/
def pixelByte (inputMemory : MemoryBank) (x_ratio y_ratio : ℚ) (outX outY : Nat) : Nat :=
  toUInt8 (FixedPoint.fromInt
    (BilinearInterpolator.interpolatePixel.locals inputMemory
      (toFloat32 (toFloat64 (x_ratio * toFloat64 outX)))
      (toFloat32 (toFloat64 (y_ratio * toFloat64 outY)))).interp_sum).toInt

/-- The first `k` entries of the vector hold the bytes of the raster in row-major order. -/
def Filled (g : Nat → Nat → Nat) (W N : Nat) (l : List Nat) (k : Nat) : Prop :=
  l.length = N ∧ ∀ i, i < k → l[i]? = some (g (i % W) (i / W))

/-- The vector has length `n` and its entries below `k` are zero. -/
def ZeroedTo (n : Nat) (l : List Nat) (k : Nat) : Prop :=
  l.length = n ∧ ∀ i, i < k → i < n → l[i]? = some 0

/-! ## Concrete inputs -/

/-- The 2x2 bank `[10,20,30,40]` of the centre-sample scenario. -/
def bank2x2 : MemoryBank := ⟨[10, 20, 30, 40], 2, 2⟩

/-- A 1x1 bank holding the sample 200. -/
def bank200 : MemoryBank := ⟨[200], 1, 1⟩

/-- The all-zero 4x4 bank. -/
def bankZero4x4 : MemoryBank := ⟨List.replicate 16 0, 4, 4⟩

/-- A bank of width 65536 and height 65537: `2^32` samples 0 followed by 65536
samples 7, which is `65536 * 65537` samples. -/
def bankHuge : MemoryBank :=
  MemoryBank.initialise (List.replicate 4294967296 0 ++ List.replicate 65536 7) 65536 65537

/-- A bank of width `2^31 + 1` and height 1, all samples 0. -/
def bankWide : MemoryBank :=
  MemoryBank.initialise (List.replicate 2147483649 0) 2147483649 1

/-- Registers as the constructors leave them. -/
def regs0 : BilinearInterpolator :=
  { config := { inputWidth := 0, inputHeight := 0, scaleFactor := 0 },
    status := StatusRegisters.init,
    perfCounters := { flops := 0, memoryReads := 0, memoryWrites := 0, cycles := 0 } }

/-- Registers left by an earlier job that is still marked busy. -/
def regsUsed : BilinearInterpolator :=
  { config := { inputWidth := 4, inputHeight := 4, scaleFactor := 192 },
    status := { busy := true, ready := false, progress := 37, errorCode := 0 },
    perfCounters := { flops := 135, memoryReads := 36, memoryWrites := 9, cycles := 9 } }

/-! # Theorems -/

/-! ## Rounding is exact on small integers -/

theorem roundHalfEven_intCast (z : Int) : roundHalfEven (z : ℚ) = z := by
  simp [roundHalfEven]

theorem roundToPrec_zero (p : Nat) : roundToPrec p 0 = 0 := by
  simp [roundToPrec]

/-- A value that is a whole number of units in the last place is not changed. -/
theorem roundToPrec_of_units (p : Nat) (q : ℚ) (e : Int) (z : Int)
    (he : Int.log 2 |q| - ((p : Int) - 1) = e) (hz : q / (2 : ℚ) ^ e = z) :
    roundToPrec p q = q := by
  unfold roundToPrec
  split
  · rename_i h0; exact h0.symm
  · simp only [he, hz, roundHalfEven_intCast]
    rw [← hz]
    have h2 : (2 : ℚ) ^ e ≠ 0 := zpow_ne_zero e (by norm_num)
    field_simp

theorem roundToPrec_natCast (p n : Nat) (h : n < 2 ^ (p + 1)) :
    roundToPrec (p + 1) (n : ℚ) = n := by
  rcases Nat.eq_zero_or_pos n with h0 | h0
  · subst h0; simp [roundToPrec]
  have habs : |(n : ℚ)| = ((n : ℕ) : ℚ) := abs_of_nonneg (by positivity)
  have hlog : Nat.log 2 n ≤ p := by
    have := Nat.log_lt_of_lt_pow (Nat.pos_iff_ne_zero.mp h0) h
    omega
  obtain ⟨k, hk⟩ := Nat.exists_eq_add_of_le hlog
  have he : Int.log 2 |(n : ℚ)| - (((p + 1 : ℕ) : Int) - 1) = -(k : Int) := by
    rw [habs, Int.log_natCast]; push_cast; omega
  refine roundToPrec_of_units (p + 1) n (-(k : Int)) ((n * 2 ^ k : ℕ) : Int) he ?_
  rw [zpow_neg, zpow_natCast]; push_cast; field_simp

theorem toFloat32_natCast (n : Nat) (h : n < 16777216) : toFloat32 (n : ℚ) = n :=
  roundToPrec_natCast 23 n (by norm_num; exact h)

theorem toFloat64_natCast (n : Nat) (h : n < 9007199254740992) : toFloat64 (n : ℚ) = n :=
  roundToPrec_natCast 52 n (by norm_num; exact h)

theorem toFloat32_zero : toFloat32 0 = 0 := roundToPrec_zero 24

theorem toFloat64_zero : toFloat64 0 = 0 := roundToPrec_zero 53

theorem toFloat32_half : toFloat32 (1 / 2) = 1 / 2 := by
  have hlog : Int.log 2 |(1 / 2 : ℚ)| = -1 := by
    have h : |(1 / 2 : ℚ)| = ((2 : ℕ) : ℚ) ^ (-1 : ℤ) := by norm_num
    rw [h, Int.log_zpow (by norm_num)]
  refine roundToPrec_of_units 24 (1 / 2) (-24) 8388608 (by rw [hlog]; norm_num) ?_
  norm_num

/-! ## Conversions at particular values -/

theorem truncQ_intCast (z : Int) : truncQ (z : ℚ) = z := by
  unfold truncQ; split <;> simp

theorem fromFloat_of_raw (f : ℚ) (z : Int) (h : f * 256 = z) :
    FixedPoint.fromFloat f = ⟨toInt16 z⟩ := by
  have h2 : f * 2 ^ FixedPoint.FRACTIONAL_BITS = (z : ℚ) := by
    rw [← h]; norm_num [FixedPoint.FRACTIONAL_BITS]
  simp only [FixedPoint.fromFloat, h2, truncQ_intCast]

theorem fromFloat_zero : FixedPoint.fromFloat 0 = ⟨0⟩ :=
  fromFloat_of_raw 0 0 (by norm_num)

theorem fromFloat_one : FixedPoint.fromFloat 1 = ⟨256⟩ :=
  fromFloat_of_raw 1 256 (by norm_num)

theorem fromFloat_half : FixedPoint.fromFloat (1 / 2) = ⟨128⟩ :=
  fromFloat_of_raw (1 / 2) 128 (by norm_num)

theorem fromFloat_quarter : FixedPoint.fromFloat (1 / 4) = ⟨64⟩ :=
  fromFloat_of_raw (1 / 4) 64 (by norm_num)

theorem fromFloat_three_quarters : FixedPoint.fromFloat (3 / 4) = ⟨192⟩ :=
  fromFloat_of_raw (3 / 4) 192 (by norm_num)

theorem fromInt_one : FixedPoint.fromInt 1 = ⟨256⟩ := by decide

/-! ## The two implementations compute `satSum` -/

theorem bilinear_interpolate_q88_eq (p00 p10 p01 p11 : Nat) (a b : ℚ) :
    bilinear_interpolate_q88 p00 p10 p01 p11 a b
      = satSum p00 p10 p01 p11 (FixedPoint.fromFloat a).value (FixedPoint.fromFloat b).value := by
  unfold bilinear_interpolate_q88 satSum
  rw [fromInt_one]
  simp only [FixedPoint.sub, FixedPoint.getRaw]
  split_ifs <;> first | rfl | omega

theorem locals_interp_sum_eq (memory : MemoryBank) (x y : ℚ) :
    (BilinearInterpolator.interpolatePixel.locals memory x y).interp_sum
      = satSum (BilinearInterpolator.interpolatePixel.locals memory x y).p00
          (BilinearInterpolator.interpolatePixel.locals memory x y).p10
          (BilinearInterpolator.interpolatePixel.locals memory x y).p01
          (BilinearInterpolator.interpolatePixel.locals memory x y).p11
          (BilinearInterpolator.interpolatePixel.locals memory x y).a.value
          (BilinearInterpolator.interpolatePixel.locals memory x y).b.value := by
  unfold BilinearInterpolator.interpolatePixel.locals satSum
  rw [fromInt_one]
  simp only [FixedPoint.sub, FixedPoint.getRaw]

theorem satSum_bounds (p00 p10 p01 p11 : Nat) (a b : Int) :
    0 ≤ satSum p00 p10 p01 p11 a b ∧ satSum p00 p10 p01 p11 a b ≤ 255 := by
  unfold satSum
  dsimp only
  constructor <;> split_ifs <;> omega

theorem satSum_00 (p00 p10 p01 p11 : Nat) (h00 : p00 ≤ 255) :
    satSum p00 p10 p01 p11 0 0 = p00 := by
  have h1 : toInt16 (256 - 0) = 256 := by decide
  unfold satSum
  rw [h1]
  simp only [Int.shiftRight_eq_div_pow, toInt32]
  norm_num
  omega

theorem satSum_10 (p00 p10 p01 p11 : Nat) (h10 : p10 ≤ 255) :
    satSum p00 p10 p01 p11 256 0 = p10 := by
  have h1 : toInt16 (256 - 0) = 256 := by decide
  have h2 : toInt16 (256 - 256) = 0 := by decide
  unfold satSum
  rw [h1, h2]
  simp only [Int.shiftRight_eq_div_pow, toInt32]
  norm_num
  omega

theorem satSum_01 (p00 p10 p01 p11 : Nat) (h01 : p01 ≤ 255) :
    satSum p00 p10 p01 p11 0 256 = p01 := by
  have h1 : toInt16 (256 - 0) = 256 := by decide
  have h2 : toInt16 (256 - 256) = 0 := by decide
  unfold satSum
  rw [h1, h2]
  simp only [Int.shiftRight_eq_div_pow, toInt32]
  norm_num
  omega

theorem satSum_11 (p00 p10 p01 p11 : Nat) (h11 : p11 ≤ 255) :
    satSum p00 p10 p01 p11 256 256 = p11 := by
  have h2 : toInt16 (256 - 256) = 0 := by decide
  unfold satSum
  rw [h2]
  simp only [Int.shiftRight_eq_div_pow, toInt32]
  norm_num
  omega

theorem satSum_centre (p00 p10 p01 p11 : Nat) (h00 : p00 ≤ 255) (h10 : p10 ≤ 255)
    (h01 : p01 ≤ 255) (h11 : p11 ≤ 255) :
    satSum p00 p10 p01 p11 128 128 = ((p00 + p10 + p01 + p11 : Nat) : Int) / 4 := by
  have h1 : toInt16 (256 - 128) = 128 := by decide
  unfold satSum
  rw [h1]
  simp only [Int.shiftRight_eq_div_pow, toInt32]
  norm_num
  omega

/-! ## The local variables of `interpolatePixel` -/

open BilinearInterpolator

theorem locals_a (memory : MemoryBank) (x y : ℚ) :
    (interpolatePixel.locals memory x y).a
      = FixedPoint.fromFloat (toFloat32 (x - toFloat32 (interpolatePixel.locals memory x y).x0)) :=
  rfl

theorem locals_b (memory : MemoryBank) (x y : ℚ) :
    (interpolatePixel.locals memory x y).b
      = FixedPoint.fromFloat (toFloat32 (y - toFloat32 (interpolatePixel.locals memory x y).y0)) :=
  rfl

theorem locals_x0 (memory : MemoryBank) (x y : ℚ) :
    (interpolatePixel.locals memory x y).x0
      = max 0 (min (toInt32 ⌊x⌋) (toInt32 (toInt32 memory.width - 1))) :=
  rfl

theorem locals_y0 (memory : MemoryBank) (x y : ℚ) :
    (interpolatePixel.locals memory x y).y0
      = max 0 (min (toInt32 ⌊y⌋) (toInt32 (toInt32 memory.height - 1))) :=
  rfl

theorem locals_x1 (memory : MemoryBank) (x y : ℚ) :
    (interpolatePixel.locals memory x y).x1
      = min (toInt32 (toInt32 ⌊x⌋ + 1)) (toInt32 (toInt32 memory.width - 1)) :=
  rfl

theorem locals_y1 (memory : MemoryBank) (x y : ℚ) :
    (interpolatePixel.locals memory x y).y1
      = min (toInt32 (toInt32 ⌊y⌋ + 1)) (toInt32 (toInt32 memory.height - 1)) :=
  rfl

theorem locals_p00 (memory : MemoryBank) (x y : ℚ) :
    (interpolatePixel.locals memory x y).p00
      = memory.readPixel (toUInt32 (interpolatePixel.locals memory x y).x0)
          (toUInt32 (interpolatePixel.locals memory x y).y0) :=
  rfl

theorem locals_p10 (memory : MemoryBank) (x y : ℚ) :
    (interpolatePixel.locals memory x y).p10
      = memory.readPixel (toUInt32 (interpolatePixel.locals memory x y).x1)
          (toUInt32 (interpolatePixel.locals memory x y).y0) :=
  rfl

theorem locals_p01 (memory : MemoryBank) (x y : ℚ) :
    (interpolatePixel.locals memory x y).p01
      = memory.readPixel (toUInt32 (interpolatePixel.locals memory x y).x0)
          (toUInt32 (interpolatePixel.locals memory x y).y1) :=
  rfl

theorem locals_p11 (memory : MemoryBank) (x y : ℚ) :
    (interpolatePixel.locals memory x y).p11
      = memory.readPixel (toUInt32 (interpolatePixel.locals memory x y).x1)
          (toUInt32 (interpolatePixel.locals memory x y).y1) :=
  rfl

theorem locals_weights (memory : MemoryBank) (x y : ℚ) :
    (interpolatePixel.locals memory x y).w00
        = (toInt16 (256 - (interpolatePixel.locals memory x y).a.value)
            * toInt16 (256 - (interpolatePixel.locals memory x y).b.value)) >>> (8 : Nat)
    ∧ (interpolatePixel.locals memory x y).w10
        = ((interpolatePixel.locals memory x y).a.value
            * toInt16 (256 - (interpolatePixel.locals memory x y).b.value)) >>> (8 : Nat)
    ∧ (interpolatePixel.locals memory x y).w01
        = (toInt16 (256 - (interpolatePixel.locals memory x y).a.value)
            * (interpolatePixel.locals memory x y).b.value) >>> (8 : Nat)
    ∧ (interpolatePixel.locals memory x y).w11
        = ((interpolatePixel.locals memory x y).a.value
            * (interpolatePixel.locals memory x y).b.value) >>> (8 : Nat) := by
  unfold interpolatePixel.locals
  rw [fromInt_one]
  simp only [FixedPoint.sub, FixedPoint.getRaw, and_self]

theorem floor_half : ⌊(1 / 2 : ℚ)⌋ = 0 := by norm_num

theorem locals_bank2x2_idx :
    (interpolatePixel.locals bank2x2 (1 / 2) (1 / 2)).x0 = 0
    ∧ (interpolatePixel.locals bank2x2 (1 / 2) (1 / 2)).y0 = 0
    ∧ (interpolatePixel.locals bank2x2 (1 / 2) (1 / 2)).x1 = 1
    ∧ (interpolatePixel.locals bank2x2 (1 / 2) (1 / 2)).y1 = 1 := by
  rw [locals_x0, locals_y0, locals_x1, locals_y1, floor_half]
  decide

theorem locals_bank2x2 :
    (interpolatePixel.locals bank2x2 (1 / 2) (1 / 2)).p00 = 10
    ∧ (interpolatePixel.locals bank2x2 (1 / 2) (1 / 2)).p10 = 20
    ∧ (interpolatePixel.locals bank2x2 (1 / 2) (1 / 2)).p01 = 30
    ∧ (interpolatePixel.locals bank2x2 (1 / 2) (1 / 2)).p11 = 40
    ∧ (interpolatePixel.locals bank2x2 (1 / 2) (1 / 2)).a = ⟨128⟩
    ∧ (interpolatePixel.locals bank2x2 (1 / 2) (1 / 2)).b = ⟨128⟩ := by
  obtain ⟨hx0, hy0, hx1, hy1⟩ := locals_bank2x2_idx
  rw [locals_p00, locals_p10, locals_p01, locals_p11, locals_a, locals_b, hx0, hy0, hx1, hy1]
  have h0 : toFloat32 ((0 : Int) : ℚ) = 0 := by rw [Int.cast_zero]; exact toFloat32_zero
  rw [h0, sub_zero, toFloat32_half, fromFloat_half]
  decide

theorem toInt32_of_range (z : Int) (h0 : -2147483648 ≤ z) (h1 : z < 2147483648) :
    toInt32 z = z := by
  unfold toInt32; omega

theorem toUInt32_natCast (n : Nat) (h : n < 4294967296) : toUInt32 (n : Int) = n := by
  unfold toUInt32; omega

/-- At integral coordinates inside the bank both offsets are zero and the first
neighbour is the sample at the coordinate. -/
theorem locals_natCast (memory : MemoryBank) (n m : Nat) (hn : n < memory.width)
    (hm : m < memory.height) (hw : memory.width ≤ 16777216) (hh : memory.height ≤ 16777216) :
    (interpolatePixel.locals memory n m).a = ⟨0⟩
    ∧ (interpolatePixel.locals memory n m).b = ⟨0⟩
    ∧ (interpolatePixel.locals memory n m).p00 = memory.readPixel n m := by
  have hx0 : (interpolatePixel.locals memory n m).x0 = (n : Int) := by
    rw [locals_x0, Int.floor_natCast]
    unfold toInt32; omega
  have hy0 : (interpolatePixel.locals memory n m).y0 = (m : Int) := by
    rw [locals_y0, Int.floor_natCast]
    unfold toInt32; omega
  have hfn : toFloat32 (((n : Int) : ℚ)) = n := by
    rw [Int.cast_natCast]; exact toFloat32_natCast n (by omega)
  have hfm : toFloat32 (((m : Int) : ℚ)) = m := by
    rw [Int.cast_natCast]; exact toFloat32_natCast m (by omega)
  refine ⟨?_, ?_, ?_⟩
  · rw [locals_a, hx0, hfn, sub_self, toFloat32_zero, fromFloat_zero]
  · rw [locals_b, hy0, hfm, sub_self, toFloat32_zero, fromFloat_zero]
  · rw [locals_p00, hx0, hy0, toUInt32_natCast n (by omega), toUInt32_natCast m (by omega)]

theorem readPixel_le (memory : MemoryBank) (hb : ∀ p ∈ memory.data, p < 256) (x y : Nat) :
    memory.readPixel x y ≤ 255 := by
  unfold MemoryBank.readPixel
  split
  · omega
  · rw [List.getD_eq_getElem?_getD]
    cases h : memory.data[memory.offset x y]? with
    | none => simp
    | some v =>
      have := hb v (List.getElem?_mem h)
      simp only [Option.getD_some]; omega

theorem locals_interp_sum_natCast (memory : MemoryBank) (hb : ∀ p ∈ memory.data, p < 256)
    (n m : Nat) (hn : n < memory.width)
    (hm : m < memory.height) (hw : memory.width ≤ 16777216) (hh : memory.height ≤ 16777216) :
    (interpolatePixel.locals memory n m).interp_sum = memory.readPixel n m := by
  obtain ⟨ha, hb', hp⟩ := locals_natCast memory n m hn hm hw hh
  rw [locals_interp_sum_eq, ha, hb',
    satSum_00 _ _ _ _ (by rw [hp]; exact readPixel_le memory hb n m), hp]

/-- The byte stored from a saturated sum is the sum. -/
theorem toUInt8_toInt_fromInt (s : Int) (h0 : 0 ≤ s) (h1 : s ≤ 255) :
    toUInt8 (FixedPoint.fromInt s).toInt = s.toNat := by
  unfold FixedPoint.fromInt FixedPoint.toInt toUInt8 toInt16 toInt32
  simp only [FixedPoint.FRACTIONAL_BITS, Int.shiftRight_eq_div_pow]
  norm_num
  omega

theorem toInt_fromInt (s : Int) (h0 : 0 ≤ s) (h1 : s ≤ 255) :
    (FixedPoint.fromInt s).toInt = if s < 128 then s else s - 256 := by
  unfold FixedPoint.fromInt FixedPoint.toInt toInt16 toInt32
  simp only [FixedPoint.FRACTIONAL_BITS, Int.shiftRight_eq_div_pow]
  norm_num
  split <;> omega

theorem getRaw_fromInt_mod (s : Int) : (FixedPoint.fromInt s).getRaw % 256 = 0 := by
  unfold FixedPoint.fromInt FixedPoint.getRaw toInt16 toInt32
  simp only [FixedPoint.FRACTIONAL_BITS]
  norm_num
  omega


/-! ## The scan of `processSequential` -/

theorem body_outputPixels (inputMemory : MemoryBank) (xr yr : ℚ) (W T outY outX : Nat)
    (st : ScanState) :
    (processSequential.body inputMemory xr yr W T outY outX st).outputPixels
      = st.outputPixels.set ((outY * W + outX) % U32) (pixelByte inputMemory xr yr outX outY) := by
  rfl

theorem body_perfCounters (inputMemory : MemoryBank) (xr yr : ℚ) (W T outY outX : Nat)
    (st : ScanState) :
    (processSequential.body inputMemory xr yr W T outY outX st).self.perfCounters
      = { flops := (st.self.perfCounters.flops + 15) % U64,
          memoryReads := (st.self.perfCounters.memoryReads + 4) % U64,
          memoryWrites := (st.self.perfCounters.memoryWrites + 1) % U64,
          cycles := (st.self.perfCounters.cycles + 1) % U64 } := by
  unfold processSequential.body
  simp only [interpolatePixel, PerformanceCounters.incrementCycles,
    PerformanceCounters.incrementFlops, PerformanceCounters.incrementMemoryReads,
    PerformanceCounters.incrementMemoryWrites]
  have hf : ∀ f : Nat, ((((f + 2) % U64 + 2) % U64 + 4) % U64 + 7) % U64 = (f + 15) % U64 := by
    intro f; unfold U64; omega
  split <;> simp only [hf]

/-- A counter that every step advances by `k` has advanced by `k * length` after a fold. -/
theorem foldl_counter (c : ScanState → Nat) (k : Nat) (step : Nat → ScanState → ScanState)
    (h : ∀ i st, c st < U64 → c (step i st) = (c st + k) % U64) (xs : List Nat) :
    ∀ st, c st < U64 →
      c (xs.foldl (fun st i => step i st) st) = (c st + k * xs.length) % U64 := by
  induction xs with
  | nil => intro st hst; simp [Nat.mod_eq_of_lt hst]
  | cons x xs ih =>
    intro st hst
    have hlt : c (step x st) < U64 := by
      rw [h x st hst]; exact Nat.mod_lt _ (by unfold U64; omega)
    rw [List.foldl_cons, ih (step x st) hlt, h x st hst, Nat.mod_add_mod, List.length_cons]
    congr 1; ring

/-- The nested loops advance a counter by `k` per output sample. -/
theorem scan_counter (c : ScanState → Nat) (k : Nat)
    (step : Nat → Nat → ScanState → ScanState)
    (h : ∀ r i st, c st < U64 → c (step r i st) = (c st + k) % U64) (W H : Nat)
    (st : ScanState) (hst : c st < U64) :
    c ((List.range H).foldl (fun st r => (List.range W).foldl (fun st i => step r i st) st) st)
      = (c st + k * (W * H)) % U64 := by
  have hrow : ∀ r st, c st < U64 →
      c ((List.range W).foldl (fun st i => step r i st) st) = (c st + k * W) % U64 := by
    intro r st hst
    have := foldl_counter c k (step r) (h r) (List.range W) st hst
    rwa [List.length_range] at this
  have := foldl_counter c (k * W) (fun r st => (List.range W).foldl (fun st i => step r i st) st)
    hrow (List.range H) st hst
  rw [List.length_range, Nat.mul_assoc] at this
  exact this

/-- The inner loop writes the bytes of row `r` one after another. -/
theorem row_outputPixels (inputMemory : MemoryBank) (xr yr : ℚ) (W T r : Nat) (xs : List Nat) :
    ∀ st : ScanState,
      (xs.foldl (fun st x => processSequential.body inputMemory xr yr W T r x st) st).outputPixels
        = xs.foldl (fun l x => l.set ((r * W + x) % U32) (pixelByte inputMemory xr yr x r))
            st.outputPixels := by
  induction xs with
  | nil => intro st; rfl
  | cons x xs ih =>
    intro st
    rw [List.foldl_cons, ih, body_outputPixels, List.foldl_cons]

/-- The nested loops act on the output vector alone. -/
theorem scan_outputPixels (inputMemory : MemoryBank) (xr yr : ℚ) (W T : Nat) (rs : List Nat) :
    ∀ st : ScanState,
      (rs.foldl (fun st r => (List.range W).foldl
          (fun st x => processSequential.body inputMemory xr yr W T r x st) st) st).outputPixels
        = rs.foldl (fun l r => (List.range W).foldl
            (fun l x => l.set ((r * W + x) % U32) (pixelByte inputMemory xr yr x r)) l)
            st.outputPixels := by
  induction rs with
  | nil => intro st; rfl
  | cons r rs ih =>
    intro st
    rw [List.foldl_cons, ih, row_outputPixels, List.foldl_cons]

theorem filled_row (g : Nat → Nat → Nat) (W H r : Nat) (hr : r < H) (hN : W * H < U32)
    (c : Nat) :
    ∀ l : List Nat, c ≤ W → Filled g W (W * H) l (r * W) →
      Filled g W (W * H)
        ((List.range c).foldl (fun l x => l.set ((r * W + x) % U32) (g x r)) l) (r * W + c) := by
  induction c with
  | zero => intro l _ h; simpa using h
  | succ c ih =>
    intro l hc h
    have hprev := ih l (by omega) h
    rw [List.range_succ, List.foldl_append, List.foldl_cons, List.foldl_nil]
    have hidx : r * W + c < W * H := by
      have : (r + 1) * W ≤ H * W := Nat.mul_le_mul_right W hr
      have e1 : (r + 1) * W = r * W + W := by ring
      have e2 : H * W = W * H := Nat.mul_comm H W
      omega
    have hmod : (r * W + c) % U32 = r * W + c := Nat.mod_eq_of_lt (by omega)
    rw [hmod]
    refine ⟨by rw [List.length_set]; exact hprev.1, ?_⟩
    intro i hi
    by_cases hic : i = r * W + c
    · subst hic
      have hWpos : 0 < W := by omega
      have h1 : (r * W + c) % W = c := by
        rw [Nat.add_comm, Nat.add_mul_mod_self_right]; exact Nat.mod_eq_of_lt (by omega)
      have h2 : (r * W + c) / W = r := by
        rw [Nat.add_comm, Nat.add_mul_div_right _ _ hWpos, Nat.div_eq_of_lt (by omega),
          Nat.zero_add]
      rw [h1, h2, List.getElem?_set_self (by rw [hprev.1]; exact hidx)]
    · rw [List.getElem?_set_ne (Ne.symm hic)]
      exact hprev.2 i (by omega)

theorem filled_rows (g : Nat → Nat → Nat) (W H : Nat) (hN : W * H < U32) (n : Nat) :
    ∀ l : List Nat, n ≤ H → l.length = W * H →
      Filled g W (W * H)
        ((List.range n).foldl (fun l r => (List.range W).foldl
          (fun l x => l.set ((r * W + x) % U32) (g x r)) l) l) (n * W) := by
  induction n with
  | zero => intro l _ hl; exact ⟨hl, fun i hi => by omega⟩
  | succ n ih =>
    intro l hn hl
    have hprev := ih l (by omega) hl
    rw [List.range_succ, List.foldl_append, List.foldl_cons, List.foldl_nil]
    have := filled_row g W H n (by omega) hN W _ (le_refl W) hprev
    have e : (n + 1) * W = n * W + W := by ring
    rw [e]; exact this

theorem length_resize (v : List Nat) (n : Nat) : (resize v n).length = n := by
  unfold resize
  rw [List.length_append, List.length_take, List.length_replicate]
  omega

/-- The output vector of `processSequential` when the raster size fits 32 bits. -/
theorem processSequential_output (self : BilinearInterpolator) (inputMemory : MemoryBank)
    (outputPixels : List Nat) (W H : Nat) (hN : W * H < U32) :
    ∃ xr yr : ℚ,
      (xr = if W > 1 then
          toFloat64 (toFloat64 (((inputMemory.getWidth + U32 - 1) % U32 : Nat) : ℚ)
            / toFloat64 ((W - 1 : Nat) : ℚ)) else 0)
      ∧ (yr = if H > 1 then
          toFloat64 (toFloat64 (((inputMemory.getHeight + U32 - 1) % U32 : Nat) : ℚ)
            / toFloat64 ((H - 1 : Nat) : ℚ)) else 0)
      ∧ (processSequential self inputMemory outputPixels W H).2.length = W * H
      ∧ ∀ x y, x < W → y < H →
          (processSequential self inputMemory outputPixels W H).2[y * W + x]?
            = some (pixelByte inputMemory xr yr x y) := by
  refine ⟨_, _, rfl, rfl, ?_⟩
  unfold processSequential processSequential.run
  simp only []
  rw [scan_outputPixels]
  have hmod : W * H % U32 = W * H := Nat.mod_eq_of_lt hN
  have hf := filled_rows (pixelByte inputMemory
      (if W > 1 then
          toFloat64 (toFloat64 (((inputMemory.getWidth + U32 - 1) % U32 : Nat) : ℚ)
            / toFloat64 ((W - 1 : Nat) : ℚ)) else 0)
      (if H > 1 then
          toFloat64 (toFloat64 (((inputMemory.getHeight + U32 - 1) % U32 : Nat) : ℚ)
            / toFloat64 ((H - 1 : Nat) : ℚ)) else 0)) W H hN H
    (resize outputPixels (W * H % U32)) (le_refl H) (by rw [length_resize, hmod])
  refine ⟨hf.1, ?_⟩
  intro x y hx hy
  have hidx : y * W + x < H * W := by
    have : (y + 1) * W ≤ H * W := Nat.mul_le_mul_right W hy
    have e1 : (y + 1) * W = y * W + W := by ring
    omega
  have h1 : (y * W + x) % W = x := by
    rw [Nat.add_comm, Nat.add_mul_mod_self_right]; exact Nat.mod_eq_of_lt hx
  have h2 : (y * W + x) / W = y := by
    rw [Nat.add_comm, Nat.add_mul_div_right _ _ (by omega), Nat.div_eq_of_lt hx, Nat.zero_add]
  have := hf.2 (y * W + x) hidx
  rw [h1, h2] at this
  exact this

/-- At unit scale the source coordinate of output column (or row) `x` is `x`. -/
theorem unit_ratio_coordinate (W x : Nat) (hW : W ≤ 512) (hx : x < W) :
    toFloat32 (toFloat64 ((if W > 1 then
        toFloat64 (toFloat64 (((W + U32 - 1) % U32 : Nat) : ℚ) / toFloat64 ((W - 1 : Nat) : ℚ))
      else 0) * toFloat64 (x : ℚ))) = (x : ℚ) := by
  have hx64 : toFloat64 (x : ℚ) = x := toFloat64_natCast x (by omega)
  have hx32 : toFloat32 (x : ℚ) = x := toFloat32_natCast x (by omega)
  split
  · rename_i h1
    have hsub : (W + U32 - 1) % U32 = W - 1 := by unfold U32; omega
    have hw64 : toFloat64 ((W - 1 : Nat) : ℚ) = ((W - 1 : Nat) : ℚ) :=
      toFloat64_natCast (W - 1) (by omega)
    have hne : ((W - 1 : Nat) : ℚ) ≠ 0 := by
      have : 0 < W - 1 := by omega
      positivity
    have hone : toFloat64 (1 : ℚ) = 1 := by
      have := toFloat64_natCast 1 (by norm_num)
      simpa using this
    rw [hsub, hw64, div_self hne, hone, one_mul, hx64, hx64, hx32]
  · have hx0 : x = 0 := by omega
    subst hx0
    rw [zero_mul, toFloat64_zero, toFloat32_zero, Nat.cast_zero]

theorem pixelByte_unit (bank : MemoryBank) (hb : ∀ p ∈ bank.data, p < 256)
    (hW : bank.width ≤ 512) (hH : bank.height ≤ 512) (x y : Nat)
    (hx : x < bank.width) (hy : y < bank.height) :
    pixelByte bank
      (if bank.width > 1 then
        toFloat64 (toFloat64 (((bank.getWidth + U32 - 1) % U32 : Nat) : ℚ)
          / toFloat64 ((bank.width - 1 : Nat) : ℚ)) else 0)
      (if bank.height > 1 then
        toFloat64 (toFloat64 (((bank.getHeight + U32 - 1) % U32 : Nat) : ℚ)
          / toFloat64 ((bank.height - 1 : Nat) : ℚ)) else 0) x y
      = bank.readPixel x y := by
  unfold pixelByte
  have h1 := unit_ratio_coordinate bank.width x hW hx
  have h2 := unit_ratio_coordinate bank.height y hH hy
  simp only [MemoryBank.getWidth, MemoryBank.getHeight]
  rw [h1, h2, locals_interp_sum_natCast bank hb x y hx hy (by omega) (by omega),
    toUInt8_toInt_fromInt _ (by omega) (by have := readPixel_le bank hb x y; omega)]
  simp

theorem readPixel_zero (bank : MemoryBank) (hz : ∀ p ∈ bank.data, p = 0) (x y : Nat) :
    bank.readPixel x y = 0 := by
  unfold MemoryBank.readPixel
  split
  · rfl
  · rw [List.getD_eq_getElem?_getD]
    cases h : bank.data[bank.offset x y]? with
    | none => rfl
    | some v => simpa using hz v (List.getElem?_mem h)

theorem satSum_zero (a b : Int) : satSum 0 0 0 0 a b = 0 := by
  unfold satSum
  simp only [Nat.cast_zero, zero_mul, add_zero]
  decide

theorem pixelByte_zero (bank : MemoryBank) (hz : ∀ p ∈ bank.data, p = 0) (xr yr : ℚ)
    (x y : Nat) : pixelByte bank xr yr x y = 0 := by
  unfold pixelByte
  rw [locals_interp_sum_eq, locals_p00, locals_p10, locals_p01, locals_p11]
  simp only [readPixel_zero bank hz, satSum_zero]
  decide


theorem zeroedTo_row (W n r : Nat) (hn : n ≤ U32) (c : Nat) :
    ∀ l : List Nat, ZeroedTo n l (r * W) →
      ZeroedTo n ((List.range c).foldl (fun l x => l.set ((r * W + x) % U32) 0) l)
        (r * W + c) := by
  induction c with
  | zero => intro l h; simpa using h
  | succ c ih =>
    intro l h
    have hprev := ih l h
    rw [List.range_succ, List.foldl_append, List.foldl_cons, List.foldl_nil]
    refine ⟨by rw [List.length_set]; exact hprev.1, ?_⟩
    intro i hi hin
    by_cases hic : (r * W + c) % U32 = i
    · rw [hic, List.getElem?_set_self (by rw [hprev.1]; exact hin)]
    · rw [List.getElem?_set_ne hic]
      refine hprev.2 i ?_ hin
      by_contra hge
      have hik : i = r * W + c := by omega
      exact hic (by rw [hik]; exact Nat.mod_eq_of_lt (by omega))

theorem zeroedTo_rows (W n : Nat) (hn : n ≤ U32) (m : Nat) :
    ∀ l : List Nat, l.length = n →
      ZeroedTo n ((List.range m).foldl (fun l r => (List.range W).foldl
          (fun l x => l.set ((r * W + x) % U32) 0) l) l) (m * W) := by
  induction m with
  | zero => intro l hl; exact ⟨hl, fun i hi => by omega⟩
  | succ m ih =>
    intro l hl
    have hprev := ih l hl
    rw [List.range_succ, List.foldl_append, List.foldl_cons, List.foldl_nil]
    have := zeroedTo_row W n m hn W _ hprev
    have e : (m + 1) * W = m * W + W := by ring
    rw [e]; exact this

/-- From an all-zero bank every output byte is zero, for every output size. -/
theorem processSequential_zero (self : BilinearInterpolator) (bank : MemoryBank)
    (outputPixels : List Nat) (W H : Nat) (hzero : ∀ p ∈ bank.data, p = 0) :
    (processSequential self bank outputPixels W H).2.length = W * H % U32
    ∧ ∀ v ∈ (processSequential self bank outputPixels W H).2, v = 0 := by
  unfold processSequential processSequential.run
  simp only []
  rw [scan_outputPixels]
  simp only [pixelByte_zero bank hzero]
  have hlt : W * H % U32 < U32 := Nat.mod_lt _ (by unfold U32; omega)
  have hz := zeroedTo_rows W (W * H % U32) (by omega) H
    (resize outputPixels (W * H % U32)) (length_resize _ _)
  refine ⟨hz.1, ?_⟩
  intro v hv
  obtain ⟨i, hi, hget⟩ := List.getElem_of_mem hv
  have hin : i < W * H % U32 := by rw [hz.1] at hi; exact hi
  have hik : i < H * W := by
    have := Nat.mod_le (W * H) U32
    have e : H * W = W * H := Nat.mul_comm H W
    omega
  have h := hz.2 i hik hin
  rw [List.getElem?_eq_getElem hi, hget] at h
  exact Option.some.inj h

theorem fromFloat_raw_bounds (a : ℚ) (h0 : 0 ≤ a) (h1 : a ≤ 1) :
    0 ≤ (FixedPoint.fromFloat a).getRaw ∧ (FixedPoint.fromFloat a).getRaw ≤ 256 := by
  have hq0 : (0 : ℚ) ≤ a * 2 ^ FixedPoint.FRACTIONAL_BITS := by positivity
  have hq1 : a * 2 ^ FixedPoint.FRACTIONAL_BITS ≤ ((256 : Int) : ℚ) := by
    norm_num [FixedPoint.FRACTIONAL_BITS]; linarith
  have hf0 : 0 ≤ ⌊a * 2 ^ FixedPoint.FRACTIONAL_BITS⌋ := Int.floor_nonneg.mpr hq0
  have hf1 : ⌊a * 2 ^ FixedPoint.FRACTIONAL_BITS⌋ ≤ 256 := by
    have := Int.floor_mono hq1
    rwa [Int.floor_intCast] at this
  unfold FixedPoint.fromFloat FixedPoint.getRaw truncQ toInt16
  rw [if_pos hq0]
  dsimp only
  constructor <;> omega

/-! # The claims -/

/-- C1 (identity at unit scale). For a bank of byte samples with width and height at
most 512 (non-empty banks in particular), `processSequential` called with the bank's
own width and height leaves an output vector of `width * height` bytes whose entry
`y * width + x` is `readPixel x y`, whatever the registers and the vector held
before. -/
theorem C1_identity_at_unit_scale (self : BilinearInterpolator) (bank : MemoryBank)
    (outputPixels : List Nat) (hbytes : ∀ p ∈ bank.data, p < 256)
    (hw : bank.width ≤ 512) (hh : bank.height ≤ 512) :
    (processSequential self bank outputPixels bank.width bank.height).2.length
        = bank.width * bank.height
    ∧ ∀ x y, x < bank.width → y < bank.height →
        (processSequential self bank outputPixels bank.width bank.height).2[y * bank.width + x]?
          = some (bank.readPixel x y) := by
  have hN : bank.width * bank.height < U32 := by
    have : bank.width * bank.height ≤ 512 * 512 := Nat.mul_le_mul hw hh
    unfold U32; omega
  obtain ⟨xr, yr, hxr, hyr, hlen, hpix⟩ :=
    processSequential_output self bank outputPixels bank.width bank.height hN
  refine ⟨hlen, ?_⟩
  intro x y hx hy
  rw [hpix x y hx hy, hxr, hyr, pixelByte_unit bank hbytes hw hh x y hx hy]

/-- Witness of C1: the 2x2 bank `[10,20,30,40]`, with registers and an output vector
left over from an earlier job; the entry for (1,1) is spelled out. -/
theorem C1_identity_at_unit_scale_witness :
    ((∀ p ∈ bank2x2.data, p < 256) ∧ bank2x2.width ≤ 512 ∧ bank2x2.height ≤ 512)
    ∧ (processSequential regsUsed bank2x2 [7, 7, 7] 2 2).2.length = 2 * 2
    ∧ (processSequential regsUsed bank2x2 [7, 7, 7] 2 2).2[1 * 2 + 1]?
        = some (bank2x2.readPixel 1 1)
    ∧ bank2x2.readPixel 1 1 = 40 :=
  have h := C1_identity_at_unit_scale regsUsed bank2x2 [7, 7, 7] (by decide) (by decide)
    (by decide)
  ⟨by decide, h.1, h.2 1 1 (by decide) (by decide), by decide⟩

/-- C2 (corner exactness). For samples in [0,255], `bilinear_interpolate_q88` returns
`p00` at (a,b) = (0,0), `p10` at (1,0), `p01` at (0,1) and `p11` at (1,1); and the
saturated sum of `interpolatePixel` is the same function of its four neighbours and
its two offsets. -/
theorem C2_corner_exactness (p00 p10 p01 p11 : Nat) (h00 : p00 ≤ 255) (h10 : p10 ≤ 255)
    (h01 : p01 ≤ 255) (h11 : p11 ≤ 255) :
    bilinear_interpolate_q88 p00 p10 p01 p11 0 0 = (p00 : Int)
    ∧ bilinear_interpolate_q88 p00 p10 p01 p11 1 0 = (p10 : Int)
    ∧ bilinear_interpolate_q88 p00 p10 p01 p11 0 1 = (p01 : Int)
    ∧ bilinear_interpolate_q88 p00 p10 p01 p11 1 1 = (p11 : Int)
    ∧ ∀ (memory : MemoryBank) (x y : ℚ),
        (interpolatePixel.locals memory x y).interp_sum
          = bilinear_interpolate_q88 (interpolatePixel.locals memory x y).p00
              (interpolatePixel.locals memory x y).p10
              (interpolatePixel.locals memory x y).p01
              (interpolatePixel.locals memory x y).p11
              (toFloat32 (x - toFloat32 (interpolatePixel.locals memory x y).x0))
              (toFloat32 (y - toFloat32 (interpolatePixel.locals memory x y).y0)) := by
  refine ⟨?_, ?_, ?_, ?_, ?_⟩
  · rw [bilinear_interpolate_q88_eq, fromFloat_zero]; exact satSum_00 p00 p10 p01 p11 h00
  · rw [bilinear_interpolate_q88_eq, fromFloat_zero, fromFloat_one]
    exact satSum_10 p00 p10 p01 p11 h10
  · rw [bilinear_interpolate_q88_eq, fromFloat_zero, fromFloat_one]
    exact satSum_01 p00 p10 p01 p11 h01
  · rw [bilinear_interpolate_q88_eq, fromFloat_one]; exact satSum_11 p00 p10 p01 p11 h11
  · intro memory x y
    rw [locals_interp_sum_eq, bilinear_interpolate_q88_eq, ← locals_a, ← locals_b]

/-- Witness of C2: the samples 100, 120, 140, 160 of the test. -/
theorem C2_corner_exactness_witness :
    ((100 : Nat) ≤ 255 ∧ (120 : Nat) ≤ 255 ∧ (140 : Nat) ≤ 255 ∧ (160 : Nat) ≤ 255)
    ∧ bilinear_interpolate_q88 100 120 140 160 0 0 = 100
    ∧ bilinear_interpolate_q88 100 120 140 160 1 0 = 120
    ∧ bilinear_interpolate_q88 100 120 140 160 0 1 = 140
    ∧ bilinear_interpolate_q88 100 120 140 160 1 1 = 160 :=
  have h := C2_corner_exactness 100 120 140 160 (by decide) (by decide) (by decide) (by decide)
  ⟨by decide, h.1, h.2.1, h.2.2.1, h.2.2.2.1⟩

/-- C3, amended. For every bank and every source coordinate the `FixedPoint` that
`interpolatePixel` returns is `fromInt` of the saturated sum, the sum lies in 0..255
and the fractional bits of the result are zero; `toInt()` equals the sum when the
sum is below 128 and the sum minus 256 when it is 128 or more, so it lies in
[-128,127]. -/
theorem C3_result_is_wrapped_integral (self : BilinearInterpolator) (memory : MemoryBank)
    (x y : ℚ) (verbose : Bool) :
    (interpolatePixel self memory x y verbose).1
        = FixedPoint.fromInt (interpolatePixel.locals memory x y).interp_sum
    ∧ (interpolatePixel self memory x y verbose).1.getRaw % 256 = 0
    ∧ 0 ≤ (interpolatePixel.locals memory x y).interp_sum
    ∧ (interpolatePixel.locals memory x y).interp_sum ≤ 255
    ∧ (interpolatePixel self memory x y verbose).1.toInt
        = (if (interpolatePixel.locals memory x y).interp_sum < 128
            then (interpolatePixel.locals memory x y).interp_sum
            else (interpolatePixel.locals memory x y).interp_sum - 256)
    ∧ -128 ≤ (interpolatePixel self memory x y verbose).1.toInt
    ∧ (interpolatePixel self memory x y verbose).1.toInt ≤ 127 := by
  have hs : 0 ≤ (interpolatePixel.locals memory x y).interp_sum
      ∧ (interpolatePixel.locals memory x y).interp_sum ≤ 255 := by
    rw [locals_interp_sum_eq]; exact satSum_bounds _ _ _ _ _ _
  have hr : (interpolatePixel self memory x y verbose).1
      = FixedPoint.fromInt (interpolatePixel.locals memory x y).interp_sum := rfl
  have ht := toInt_fromInt _ hs.1 hs.2
  refine ⟨hr, ?_, hs.1, hs.2, ?_, ?_, ?_⟩
  · rw [hr]; exact getRaw_fromInt_mod _
  · rw [hr]; exact ht
  · rw [hr, ht]; split <;> omega
  · rw [hr, ht]; split <;> omega

/-- Counterexample to C3 as stated: on the 1x1 bank holding 200, at (0,0), the
saturated sum is 200 but `toInt()` of the returned value is -56. -/
theorem C3_counterexample :
    (interpolatePixel.locals bank200 0 0).interp_sum = 200
    ∧ (interpolatePixel regs0 bank200 0 0 false).1.toInt = -56
    ∧ (interpolatePixel regs0 bank200 0 0 false).1.toInt
        ≠ (interpolatePixel.locals bank200 0 0).interp_sum
    ∧ ¬ (0 ≤ (interpolatePixel regs0 bank200 0 0 false).1.toInt) := by
  have h := locals_interp_sum_natCast bank200 (by decide) 0 0 (by decide) (by decide)
    (by decide) (by decide)
  simp only [Nat.cast_zero] at h
  have h200 : bank200.readPixel 0 0 = 200 := by decide
  rw [h200] at h
  have hr : (interpolatePixel regs0 bank200 0 0 false).1
      = FixedPoint.fromInt (interpolatePixel.locals bank200 0 0).interp_sum := rfl
  rw [hr, h]
  exact ⟨rfl, by decide, by decide, by decide⟩

/-- C4 (saturation bound). For all samples (in particular all samples in [0,255])
and all offsets `a`, `b` in [0,1], the raw Q8.8 offsets are in 0..256 and the result
of `bilinear_interpolate_q88` is in [0,255]; the saturated sum of `interpolatePixel`
is in [0,255] at every bank and coordinate. -/
theorem C4_saturation_bound (p00 p10 p01 p11 : Nat) (a b : ℚ)
    (ha0 : 0 ≤ a) (ha1 : a ≤ 1) (hb0 : 0 ≤ b) (hb1 : b ≤ 1) :
    (0 ≤ (FixedPoint.fromFloat a).getRaw ∧ (FixedPoint.fromFloat a).getRaw ≤ 256)
    ∧ (0 ≤ (FixedPoint.fromFloat b).getRaw ∧ (FixedPoint.fromFloat b).getRaw ≤ 256)
    ∧ 0 ≤ bilinear_interpolate_q88 p00 p10 p01 p11 a b
    ∧ bilinear_interpolate_q88 p00 p10 p01 p11 a b ≤ 255
    ∧ ∀ (memory : MemoryBank) (x y : ℚ),
        0 ≤ (interpolatePixel.locals memory x y).interp_sum
        ∧ (interpolatePixel.locals memory x y).interp_sum ≤ 255 := by
  refine ⟨fromFloat_raw_bounds a ha0 ha1, fromFloat_raw_bounds b hb0 hb1, ?_, ?_, ?_⟩
  · rw [bilinear_interpolate_q88_eq]; exact (satSum_bounds _ _ _ _ _ _).1
  · rw [bilinear_interpolate_q88_eq]; exact (satSum_bounds _ _ _ _ _ _).2
  · intro memory x y
    rw [locals_interp_sum_eq]; exact satSum_bounds _ _ _ _ _ _

/-- Witness of C4: samples 255, 0, 255, 255 with offsets 1/4 and 3/4. -/
theorem C4_saturation_bound_witness :
    ((0 : ℚ) ≤ 1 / 4 ∧ (1 / 4 : ℚ) ≤ 1 ∧ (0 : ℚ) ≤ 3 / 4 ∧ (3 / 4 : ℚ) ≤ 1)
    ∧ 0 ≤ bilinear_interpolate_q88 255 0 255 255 (1 / 4) (3 / 4)
    ∧ bilinear_interpolate_q88 255 0 255 255 (1 / 4) (3 / 4) ≤ 255 :=
  have h := C4_saturation_bound 255 0 255 255 (1 / 4) (3 / 4) (by norm_num) (by norm_num)
    (by norm_num) (by norm_num)
  ⟨⟨by norm_num, by norm_num, by norm_num, by norm_num⟩, h.2.2.1, h.2.2.2.1⟩

/-- C5 (counter determinism). When `N = outputWidth * outputHeight` is below 2^32,
the counters after `processSequential` are `cycles = N`, `memoryReads = 4N`,
`memoryWrites = N` and `flops = 15N`, for every bank and every earlier register
contents. -/
theorem C5_counter_determinism (self : BilinearInterpolator) (inputMemory : MemoryBank)
    (outputPixels : List Nat) (outputWidth outputHeight : Nat)
    (hN : outputWidth * outputHeight < 4294967296) :
    (processSequential self inputMemory outputPixels outputWidth
        outputHeight).1.perfCounters.getCycles = outputWidth * outputHeight
    ∧ (processSequential self inputMemory outputPixels outputWidth
        outputHeight).1.perfCounters.getMemoryReads = 4 * (outputWidth * outputHeight)
    ∧ (processSequential self inputMemory outputPixels outputWidth
        outputHeight).1.perfCounters.getMemoryWrites = outputWidth * outputHeight
    ∧ (processSequential self inputMemory outputPixels outputWidth
        outputHeight).1.perfCounters.getFlops = 15 * (outputWidth * outputHeight) := by
  unfold processSequential processSequential.run
  simp only [PerformanceCounters.getCycles, PerformanceCounters.getMemoryReads,
    PerformanceCounters.getMemoryWrites, PerformanceCounters.getFlops]
  refine ⟨?_, ?_, ?_, ?_⟩
  · rw [scan_counter (fun st => st.self.perfCounters.cycles) 1
      (fun r i st => processSequential.body inputMemory _ _ outputWidth _ r i st)
      (fun r i st _ => by simp only [body_perfCounters]) outputWidth outputHeight _
      (by simp [PerformanceCounters.reset, U64])]
    simp only [PerformanceCounters.reset, U64]; omega
  · rw [scan_counter (fun st => st.self.perfCounters.memoryReads) 4
      (fun r i st => processSequential.body inputMemory _ _ outputWidth _ r i st)
      (fun r i st _ => by simp only [body_perfCounters]) outputWidth outputHeight _
      (by simp [PerformanceCounters.reset, U64])]
    simp only [PerformanceCounters.reset, U64]; omega
  · rw [scan_counter (fun st => st.self.perfCounters.memoryWrites) 1
      (fun r i st => processSequential.body inputMemory _ _ outputWidth _ r i st)
      (fun r i st _ => by simp only [body_perfCounters]) outputWidth outputHeight _
      (by simp [PerformanceCounters.reset, U64])]
    simp only [PerformanceCounters.reset, U64]; omega
  · rw [scan_counter (fun st => st.self.perfCounters.flops) 15
      (fun r i st => processSequential.body inputMemory _ _ outputWidth _ r i st)
      (fun r i st _ => by simp only [body_perfCounters]) outputWidth outputHeight _
      (by simp [PerformanceCounters.reset, U64])]
    simp only [PerformanceCounters.reset, U64]; omega

/-- Witness of C5: a 3x3 raster from the 2x2 bank, starting from used counters. -/
theorem C5_counter_determinism_witness :
    3 * 3 < 4294967296
    ∧ (processSequential regsUsed bank2x2 [] 3 3).1.perfCounters.getCycles = 3 * 3
    ∧ (processSequential regsUsed bank2x2 [] 3 3).1.perfCounters.getMemoryReads = 4 * (3 * 3)
    ∧ (processSequential regsUsed bank2x2 [] 3 3).1.perfCounters.getMemoryWrites = 3 * 3
    ∧ (processSequential regsUsed bank2x2 [] 3 3).1.perfCounters.getFlops = 15 * (3 * 3) :=
  ⟨by decide, C5_counter_determinism regsUsed bank2x2 [] 3 3 (by decide)⟩

/-- C6 (job end state). For every bank, output size, output vector and earlier
register contents, after `processSequential` the status registers hold
`progress = 100`, `busy = false` and `ready = true`; an empty raster is included. -/
theorem C6_job_end_state (self : BilinearInterpolator) (inputMemory : MemoryBank)
    (outputPixels : List Nat) (outputWidth outputHeight : Nat) :
    (processSequential self inputMemory outputPixels outputWidth
        outputHeight).1.status.getProgress = 100
    ∧ (processSequential self inputMemory outputPixels outputWidth
        outputHeight).1.status.isBusy = false
    ∧ (processSequential self inputMemory outputPixels outputWidth
        outputHeight).1.status.isReady = true :=
  ⟨rfl, rfl, rfl⟩

/-- C7 (zero in, zero out). For a bank whose samples are all 0, every output size and
every earlier content of the registers and of the output vector: the byte computed
for each output sample is 0 whatever the ratios, every byte of the output vector
after `processSequential` is 0, and the vector has `outputWidth * outputHeight`
bytes when that product is below 2^32. -/
theorem C7_zero_in_zero_out (self : BilinearInterpolator) (bank : MemoryBank)
    (outputPixels : List Nat) (outputWidth outputHeight : Nat)
    (hzero : ∀ p ∈ bank.data, p = 0) :
    (∀ (x_ratio y_ratio : ℚ) (outX outY : Nat), pixelByte bank x_ratio y_ratio outX outY = 0)
    ∧ (∀ v ∈ (processSequential self bank outputPixels outputWidth outputHeight).2, v = 0)
    ∧ (outputWidth * outputHeight < 4294967296 →
        (processSequential self bank outputPixels outputWidth outputHeight).2.length
          = outputWidth * outputHeight) := by
  obtain ⟨hlen, hall⟩ :=
    processSequential_zero self bank outputPixels outputWidth outputHeight hzero
  refine ⟨fun xr yr x y => pixelByte_zero bank hzero xr yr x y, hall, ?_⟩
  intro hN
  rw [hlen]
  exact Nat.mod_eq_of_lt hN

/-- Witness of C7: the all-zero 4x4 bank scaled by 0.75 to a 3x3 raster, with a
non-zero vector passed in. -/
theorem C7_zero_in_zero_out_witness :
    (∀ p ∈ bankZero4x4.data, p = 0)
    ∧ (∀ v ∈ (processSequential regsUsed bankZero4x4 [9, 9] 3 3).2, v = 0)
    ∧ (processSequential regsUsed bankZero4x4 [9, 9] 3 3).2.length = 3 * 3 :=
  have h := C7_zero_in_zero_out regsUsed bankZero4x4 [9, 9] 3 3 (by decide)
  ⟨by decide, h.2.1, h.2.2 (by decide)⟩

/-- C8 (centre sample is the floored mean). With `a = b = 0.5` the four Q8.8 weights
are all 64 and, for samples in [0,255], the result is `floor((p00+p10+p01+p11)/4)`;
`interpolatePixel` on the 2x2 bank `[10,20,30,40]` at (0.5,0.5) has weights 64 and
returns the value 25, and the samples 100, 120, 140, 160 give 130. -/
theorem C8_centre_is_floored_mean (p00 p10 p01 p11 : Nat) (h00 : p00 ≤ 255) (h10 : p10 ≤ 255)
    (h01 : p01 ≤ 255) (h11 : p11 ≤ 255) :
    bilinear_interpolate_q88.weights (1 / 2) (1 / 2) = (64, 64, 64, 64)
    ∧ bilinear_interpolate_q88 p00 p10 p01 p11 (1 / 2) (1 / 2)
        = (((p00 + p10 + p01 + p11) / 4 : Nat) : Int)
    ∧ ((interpolatePixel.locals bank2x2 (1 / 2) (1 / 2)).w00 = 64
        ∧ (interpolatePixel.locals bank2x2 (1 / 2) (1 / 2)).w10 = 64
        ∧ (interpolatePixel.locals bank2x2 (1 / 2) (1 / 2)).w01 = 64
        ∧ (interpolatePixel.locals bank2x2 (1 / 2) (1 / 2)).w11 = 64)
    ∧ (∀ (self : BilinearInterpolator) (verbose : Bool),
        (interpolatePixel self bank2x2 (1 / 2) (1 / 2) verbose).1 = FixedPoint.fromInt 25
        ∧ (interpolatePixel self bank2x2 (1 / 2) (1 / 2) verbose).1.toInt = 25)
    ∧ bilinear_interpolate_q88 100 120 140 160 (1 / 2) (1 / 2) = 130 := by
  obtain ⟨hp00, hp10, hp01, hp11, ha, hb⟩ := locals_bank2x2
  obtain ⟨hw00, hw10, hw01, hw11⟩ := locals_weights bank2x2 (1 / 2) (1 / 2)
  have hsum : (interpolatePixel.locals bank2x2 (1 / 2) (1 / 2)).interp_sum = 25 := by
    rw [locals_interp_sum_eq, hp00, hp10, hp01, hp11, ha, hb]; decide
  refine ⟨?_, ?_, ⟨?_, ?_, ?_, ?_⟩, ?_, ?_⟩
  · unfold bilinear_interpolate_q88.weights
    rw [fromFloat_half, fromInt_one]; decide
  · rw [bilinear_interpolate_q88_eq, fromFloat_half, satSum_centre p00 p10 p01 p11 h00 h10 h01 h11]
    push_cast; omega
  · rw [hw00, ha, hb]; decide
  · rw [hw10, ha, hb]; decide
  · rw [hw01, ha, hb]; decide
  · rw [hw11, ha, hb]; decide
  · intro self verbose
    have hr : (interpolatePixel self bank2x2 (1 / 2) (1 / 2) verbose).1
        = FixedPoint.fromInt (interpolatePixel.locals bank2x2 (1 / 2) (1 / 2)).interp_sum := rfl
    rw [hr, hsum]
    exact ⟨rfl, by decide⟩
  · rw [bilinear_interpolate_q88_eq, fromFloat_half]; decide

/-- Witness of C8: the samples 10, 20, 30, 40 of the scenario. -/
theorem C8_centre_is_floored_mean_witness :
    ((10 : Nat) ≤ 255 ∧ (20 : Nat) ≤ 255 ∧ (30 : Nat) ≤ 255 ∧ (40 : Nat) ≤ 255)
    ∧ bilinear_interpolate_q88.weights (1 / 2) (1 / 2) = (64, 64, 64, 64)
    ∧ bilinear_interpolate_q88 10 20 30 40 (1 / 2) (1 / 2) = 25 :=
  have h := C8_centre_is_floored_mean 10 20 30 40 (by decide) (by decide) (by decide) (by decide)
  ⟨by decide, h.1, h.2.1⟩

/-- C9, evaluation of the code at the input of test case 3. With `a = 0.25`,
`b = 0.75` and samples 50, 150, 100, 200 the Q8.8 weights are 48, 16, 144, 48 and
`bilinear_interpolate_q88` returns 112, not the 137 the test expects; 137 is what the
same arithmetic returns when `a` and `b` are exchanged. -/
theorem C9_test_case_3_yields_112 :
    bilinear_interpolate_q88.weights (1 / 4) (3 / 4) = (48, 16, 144, 48)
    ∧ bilinear_interpolate_q88 50 150 100 200 (1 / 4) (3 / 4) = 112
    ∧ bilinear_interpolate_q88 50 150 100 200 (1 / 4) (3 / 4) ≠ 137
    ∧ bilinear_interpolate_q88 50 150 100 200 (3 / 4) (1 / 4) = 137 := by
  have h : bilinear_interpolate_q88 50 150 100 200 (1 / 4) (3 / 4) = 112 := by
    rw [bilinear_interpolate_q88_eq, fromFloat_quarter, fromFloat_three_quarters]; decide
  refine ⟨?_, h, ?_, ?_⟩
  · unfold bilinear_interpolate_q88.weights
    rw [fromFloat_quarter, fromFloat_three_quarters, fromInt_one]; decide
  · rw [h]; decide
  · rw [bilinear_interpolate_q88_eq, fromFloat_quarter, fromFloat_three_quarters]; decide

/-- C10, amended. For a bank loaded with `w * h` samples where `w * h` is at most
2^32, `readPixel x y` with `x < w` and `y < h` reads inside the buffer, at subscript
`y * w + x`, and returns that sample; with `x ≥ w` or `y ≥ h` it returns 0. The bank
is an argument and not a result of `readPixel`. -/
theorem C10_readPixel_contract (pixelData : List Nat) (w h x y : Nat)
    (hlen : pixelData.length = w * h) (hfit : w * h ≤ 4294967296) :
    (x < w → y < h →
      (MemoryBank.initialise pixelData w h).offset x y = y * w + x
      ∧ (MemoryBank.initialise pixelData w h).offset x y
          < (MemoryBank.initialise pixelData w h).data.length
      ∧ pixelData[y * w + x]? = some ((MemoryBank.initialise pixelData w h).readPixel x y))
    ∧ (x ≥ w ∨ y ≥ h → (MemoryBank.initialise pixelData w h).readPixel x y = 0) := by
  constructor
  · intro hx hy
    have hidx : y * w + x < w * h := by
      have : (y + 1) * w ≤ h * w := Nat.mul_le_mul_right w hy
      have e1 : (y + 1) * w = y * w + w := by ring
      have e2 : h * w = w * h := Nat.mul_comm h w
      omega
    have hoff : (MemoryBank.initialise pixelData w h).offset x y = y * w + x := by
      show (y * w + x) % 4294967296 = y * w + x
      exact Nat.mod_eq_of_lt (by omega)
    refine ⟨hoff, ?_, ?_⟩
    · rw [hoff]; show y * w + x < pixelData.length; omega
    · unfold MemoryBank.readPixel
      rw [if_neg (by show ¬ (x ≥ w ∨ y ≥ h); omega), hoff]
      show pixelData[y * w + x]? = some (pixelData.getD (y * w + x) 0)
      rw [List.getD_eq_getElem?_getD, List.getElem?_eq_getElem (by omega)]
      rfl
  · intro hout
    unfold MemoryBank.readPixel
    rw [if_pos (by show x ≥ w ∨ y ≥ h; exact hout)]

/-- Witness of C10: the 2x2 bank `[10,20,30,40]`, read inside at (1,1) and outside
at (2,1). -/
theorem C10_readPixel_contract_witness :
    (([10, 20, 30, 40] : List Nat).length = 2 * 2 ∧ 2 * 2 ≤ 4294967296)
    ∧ ((MemoryBank.initialise [10, 20, 30, 40] 2 2).offset 1 1 = 1 * 2 + 1
      ∧ (MemoryBank.initialise [10, 20, 30, 40] 2 2).offset 1 1
          < (MemoryBank.initialise [10, 20, 30, 40] 2 2).data.length
      ∧ ([10, 20, 30, 40] : List Nat)[1 * 2 + 1]?
          = some ((MemoryBank.initialise [10, 20, 30, 40] 2 2).readPixel 1 1))
    ∧ (MemoryBank.initialise [10, 20, 30, 40] 2 2).readPixel 2 1 = 0 :=
  ⟨by decide,
    (C10_readPixel_contract [10, 20, 30, 40] 2 2 1 1 (by decide) (by decide)).1
      (by decide) (by decide),
    (C10_readPixel_contract [10, 20, 30, 40] 2 2 2 1 (by decide) (by decide)).2
      (Or.inl (by decide))⟩

/-- Counterexample to C10 as stated: the bank of width 65536 and height 65537 holds
`65536 * 65537` samples, (0, 65536) is inside it and the sample at subscript
`65536 * 65536 + 0` is 7, but the 32 bit subscript wraps to 0 and `readPixel`
returns the sample 0 stored there. -/
theorem C10_counterexample :
    bankHuge.data.length = bankHuge.width * bankHuge.height
    ∧ 0 < bankHuge.width ∧ 65536 < bankHuge.height
    ∧ bankHuge.data[65536 * bankHuge.width + 0]? = some 7
    ∧ bankHuge.readPixel 0 65536 = 0
    ∧ bankHuge.data[65536 * bankHuge.width + 0]? ≠ some (bankHuge.readPixel 0 65536) := by
  have hread : bankHuge.readPixel 0 65536 = 0 := by
    unfold MemoryBank.readPixel
    rw [if_neg (by decide)]
    have hoff : bankHuge.offset 0 65536 = 0 := by decide
    rw [hoff]
    show (List.replicate 4294967296 0 ++ List.replicate 65536 7).getD 0 0 = 0
    rw [List.getD_eq_getElem?_getD,
      List.getElem?_append_left (by rw [List.length_replicate]; decide),
      List.getElem?_replicate]
    decide
  have hdata : bankHuge.data[65536 * bankHuge.width + 0]? = some 7 := by
    show (List.replicate 4294967296 0 ++ List.replicate 65536 7)[65536 * 65536 + 0]? = some 7
    rw [List.getElem?_append_right (by rw [List.length_replicate]),
      List.length_replicate, List.getElem?_replicate]
    decide
  refine ⟨?_, by decide, by decide, hdata, hread, ?_⟩
  · show (List.replicate 4294967296 0 ++ List.replicate 65536 7).length = 65536 * 65537
    rw [List.length_append, List.length_replicate, List.length_replicate]
  · rw [hdata, hread]; decide

/-! # The claims on `FixedPoint`, the registers and the scan driver -/


/-! ## The arithmetic operators of `FixedPoint` -/

theorem int16_mul_bounds (x y : Int) (hx0 : -32768 ≤ x) (hx1 : x ≤ 32767)
    (hy0 : -32768 ≤ y) (hy1 : y ≤ 32767) :
    -1073741824 ≤ x * y ∧ x * y ≤ 1073741824 := by
  constructor <;> nlinarith

/-- Truncating integer division is the truncation of the rational quotient. -/
theorem tdiv_eq_truncQ (a b : Int) (hb : b ≠ 0) :
    Int.tdiv a b = truncQ ((a : ℚ) / (b : ℚ)) := by
  have key : ∀ (a : Int) (d : Nat), 0 < d →
      Int.tdiv a (d : Int) = truncQ ((a : ℚ) / ((d : Int) : ℚ)) := by
    intro a d hd
    have hdq : (0 : ℚ) < (d : ℚ) := by exact_mod_cast hd
    rw [Int.cast_natCast]
    unfold truncQ
    rcases le_or_lt 0 a with ha | ha
    · have hq : (0 : ℚ) ≤ (a : ℚ) / (d : ℚ) := div_nonneg (by exact_mod_cast ha) hdq.le
      rw [if_pos hq, Rat.floor_intCast_div_natCast, Int.tdiv_eq_ediv ha (by omega)]
    · have hq : ¬ (0 : ℚ) ≤ (a : ℚ) / (d : ℚ) := by
        rw [not_le]; exact div_neg_of_neg_of_pos (by exact_mod_cast ha) hdq
      rw [if_neg hq]
      have h1 : (a : ℚ) / (d : ℚ) = -(((-a : Int) : ℚ) / (d : ℚ)) := by push_cast; ring
      rw [h1, Int.ceil_neg, Rat.floor_intCast_div_natCast]
      have h2 : Int.tdiv a (d : Int) = -Int.tdiv (-a) (d : Int) := by
        rw [Int.neg_tdiv, neg_neg]
      rw [h2, Int.tdiv_eq_ediv (by omega) (by omega)]
  rcases lt_or_gt_of_ne hb with hneg | hpos
  · obtain ⟨d, hd⟩ := Int.exists_eq_neg_ofNat (le_of_lt hneg)
    have hd0 : 0 < d := by
      rcases Nat.eq_zero_or_pos d with h | h
      · subst h; simp at hd; omega
      · exact h
    have h1 : (a : ℚ) / (b : ℚ) = ((-a : Int) : ℚ) / ((d : Int) : ℚ) := by
      rw [hd]; push_cast; rw [div_neg, neg_div]
    have h2 : Int.tdiv a b = Int.tdiv (-a) (d : Int) := by
      rw [hd, Int.tdiv_neg, Int.neg_tdiv]
    rw [h1, h2]
    exact key (-a) d hd0
  · obtain ⟨d, hd⟩ := Int.eq_ofNat_of_zero_le (le_of_lt hpos)
    rw [hd]
    exact key a d (by omega)

theorem toInt16_of_range (z : Int) (h0 : -32768 ≤ z) (h1 : z ≤ 32767) : toInt16 z = z := by
  unfold toInt16; omega

theorem toInt16_range (z : Int) : -32768 ≤ toInt16 z ∧ toInt16 z ≤ 32767 := by
  unfold toInt16; omega

theorem toInt16_congr (z : Int) : (toInt16 z - z) % 65536 = 0 := by
  unfold toInt16; omega

/-- C11 (multiply saturates). For raw values `x`, `y` of `int16_t`, the raw value of
the product is `floor(x*y/256)` clamped into [-32768, 32767]; the 32 bit product
does not overflow; raw -32768 times raw -32768 gives raw 32767, not a wrapped
value. -/
theorem C11_mul_saturates (x y : Int) (hx0 : -32768 ≤ x) (hx1 : x ≤ 32767)
    (hy0 : -32768 ≤ y) (hy1 : y ≤ 32767) :
    toInt32 (x * y) = x * y
    ∧ (FixedPoint.mul ⟨x⟩ ⟨y⟩).getRaw
        = max (-32768) (min 32767 ⌊((x * y : Int) : ℚ) / 256⌋)
    ∧ (FixedPoint.mul ⟨-32768⟩ ⟨-32768⟩).getRaw = 32767 := by
  obtain ⟨hp0, hp1⟩ := int16_mul_bounds x y hx0 hx1 hy0 hy1
  have h32 : toInt32 (x * y) = x * y := by unfold toInt32; omega
  have hfl : ⌊((x * y : Int) : ℚ) / 256⌋ = (x * y) / 256 := by
    have := Rat.floor_intCast_div_natCast (x * y) 256
    simpa using this
  refine ⟨h32, ?_, by decide⟩
  rw [hfl]
  unfold FixedPoint.mul FixedPoint.getRaw
  simp only [h32, FixedPoint.FRACTIONAL_BITS, Int.shiftRight_eq_div_pow]
  generalize x * y = p at *
  unfold toInt16
  norm_num
  split_ifs <;> omega

/-- Witness of C11: raw 384 (1.5) times raw -640 (-2.5). -/
theorem C11_mul_saturates_witness :
    ((-32768 : Int) ≤ 384 ∧ (384 : Int) ≤ 32767 ∧ (-32768 : Int) ≤ -640 ∧ (-640 : Int) ≤ 32767)
    ∧ (FixedPoint.mul ⟨384⟩ ⟨-640⟩).getRaw
        = max (-32768) (min 32767 ⌊((384 * -640 : Int) : ℚ) / 256⌋)
    ∧ (FixedPoint.mul ⟨384⟩ ⟨-640⟩).getRaw = -960 :=
  ⟨by decide, (C11_mul_saturates 384 (-640) (by decide) (by decide) (by decide) (by decide)).2.1,
    by decide⟩

/-- C12 (add and subtract wrap). For all raw values `x`, `y` the raw value of the sum
lies in [-32768, 32767] and differs from `x + y` by a multiple of 2^16, and likewise
the difference; inside the range the sum and the difference are exact; nothing
saturates: raw 32767 plus raw 1 is raw -32768 and raw -32768 minus raw 1 is raw
32767. -/
theorem C12_add_sub_wrap (x y : Int) :
    (-32768 ≤ (FixedPoint.add ⟨x⟩ ⟨y⟩).getRaw ∧ (FixedPoint.add ⟨x⟩ ⟨y⟩).getRaw ≤ 32767
      ∧ ((FixedPoint.add ⟨x⟩ ⟨y⟩).getRaw - (x + y)) % 65536 = 0)
    ∧ (-32768 ≤ (FixedPoint.sub ⟨x⟩ ⟨y⟩).getRaw ∧ (FixedPoint.sub ⟨x⟩ ⟨y⟩).getRaw ≤ 32767
      ∧ ((FixedPoint.sub ⟨x⟩ ⟨y⟩).getRaw - (x - y)) % 65536 = 0)
    ∧ (-32768 ≤ x + y → x + y ≤ 32767 → (FixedPoint.add ⟨x⟩ ⟨y⟩).getRaw = x + y)
    ∧ (-32768 ≤ x - y → x - y ≤ 32767 → (FixedPoint.sub ⟨x⟩ ⟨y⟩).getRaw = x - y)
    ∧ (FixedPoint.add ⟨32767⟩ ⟨1⟩).getRaw = -32768
    ∧ (FixedPoint.sub ⟨-32768⟩ ⟨1⟩).getRaw = 32767 := by
  refine ⟨⟨(toInt16_range _).1, (toInt16_range _).2, toInt16_congr _⟩,
    ⟨(toInt16_range _).1, (toInt16_range _).2, toInt16_congr _⟩, ?_, ?_, by decide, by decide⟩
  · intro h0 h1; exact toInt16_of_range _ h0 h1
  · intro h0 h1; exact toInt16_of_range _ h0 h1

/-- Witness of C12: raw 30000 plus and minus raw -10000. -/
theorem C12_add_sub_wrap_witness :
    (FixedPoint.add ⟨30000⟩ ⟨-10000⟩).getRaw = 30000 + -10000
    ∧ (FixedPoint.sub ⟨30000⟩ ⟨-10000⟩).getRaw = -25536
    ∧ ((FixedPoint.sub ⟨30000⟩ ⟨-10000⟩).getRaw - (30000 - -10000)) % 65536 = 0 :=
  have h := C12_add_sub_wrap 30000 (-10000)
  ⟨h.2.2.1 (by decide) (by decide), by decide, h.2.1.2.2⟩

/-- C13 (fromFloat truncates toward zero). For every `f` with `|f * 256| < 32768` the raw
value of `fromFloat f` is `f * 256` with the fraction discarded toward zero: the
floor for `f ≥ 0`, the ceiling for `f < 0`, never further from zero than `f * 256`
and less than 1 away from it. It is neither rounding to nearest (127.5 gives 127) nor
the floor (-0.5 gives 0); `fromFloat 0.5` has raw 128 and `fromFloat (-0.5)` raw
-128. -/
theorem C13_fromFloat_truncates (f : ℚ) (h : |f * 256| < 32768) :
    (0 ≤ f → (FixedPoint.fromFloat f).getRaw = ⌊f * 256⌋)
    ∧ (f < 0 → (FixedPoint.fromFloat f).getRaw = ⌈f * 256⌉)
    ∧ |((FixedPoint.fromFloat f).getRaw : ℚ)| ≤ |f * 256|
    ∧ |f * 256 - ((FixedPoint.fromFloat f).getRaw : ℚ)| < 1
    ∧ (FixedPoint.fromFloat (1 / 2)).getRaw = 128
    ∧ (FixedPoint.fromFloat (-1 / 2)).getRaw = -128
    ∧ (FixedPoint.fromFloat (255 / 512)).getRaw = 127
    ∧ (FixedPoint.fromFloat (-1 / 512)).getRaw = 0 := by
  obtain ⟨hlo, hhi⟩ := abs_lt.mp h
  have hpow : f * 2 ^ FixedPoint.FRACTIONAL_BITS = f * 256 := by
    norm_num [FixedPoint.FRACTIONAL_BITS]
  have hraw : (FixedPoint.fromFloat f).getRaw = truncQ (f * 256) := by
    unfold FixedPoint.fromFloat FixedPoint.getRaw
    rw [hpow]
    apply toInt16_of_range
    · unfold truncQ
      split
      · exact le_trans (by norm_num) (Int.floor_nonneg.mpr ‹_›)
      · have : ((-32768 : Int) : ℚ) ≤ f * 256 := by push_cast; linarith
        exact le_trans (Int.le_ceil_iff.mpr (by push_cast; linarith)) (le_refl _)
    · unfold truncQ
      split
      · have : ⌊f * 256⌋ < 32768 := Int.floor_lt.mpr (by push_cast; linarith)
        omega
      · rename_i hneg
        have : ⌈f * 256⌉ ≤ 0 := Int.ceil_le.mpr (by push_cast; linarith)
        omega
  have hfl := Int.floor_le (f * 256)
  have hfl2 := Int.lt_floor_add_one (f * 256)
  have hce := Int.le_ceil (f * 256)
  have hce2 := Int.ceil_lt_add_one (f * 256)
  refine ⟨?_, ?_, ?_, ?_, ?_, ?_, ?_, ?_⟩
  · intro h0
    rw [hraw]; unfold truncQ; rw [if_pos (by positivity)]
  · intro h0
    rw [hraw]; unfold truncQ; rw [if_neg (by rw [not_le]; linarith)]
  · rw [hraw]; unfold truncQ
    split
    · rename_i h0
      have : (0 : ℚ) ≤ (⌊f * 256⌋ : ℚ) := by exact_mod_cast Int.floor_nonneg.mpr h0
      rw [abs_of_nonneg this, abs_of_nonneg h0]; exact hfl
    · rename_i h0
      rw [not_le] at h0
      have : ((⌈f * 256⌉ : Int) : ℚ) ≤ 0 := by exact_mod_cast Int.ceil_le.mpr (by push_cast; linarith)
      rw [abs_of_nonpos this, abs_of_neg h0]; linarith
  · rw [hraw]; unfold truncQ
    split
    · rw [abs_lt]; constructor <;> linarith
    · rw [abs_lt]; constructor <;> linarith
  · rw [fromFloat_half]; rfl
  · rw [fromFloat_of_raw (-1 / 2) (-128) (by norm_num)]; decide
  · have : truncQ ((255 / 512 : ℚ) * 2 ^ FixedPoint.FRACTIONAL_BITS) = 127 := by
      unfold truncQ; norm_num [FixedPoint.FRACTIONAL_BITS]
    unfold FixedPoint.fromFloat FixedPoint.getRaw
    rw [this]; decide
  · have : truncQ ((-1 / 512 : ℚ) * 2 ^ FixedPoint.FRACTIONAL_BITS) = 0 := by
      unfold truncQ; norm_num [FixedPoint.FRACTIONAL_BITS]
    unfold FixedPoint.fromFloat FixedPoint.getRaw
    rw [this]; decide

/-- Witness of C13: `f = -3.3`, whose raw value is -844 (from -844.8). -/
theorem C13_fromFloat_truncates_witness :
    |(-33 / 10 : ℚ) * 256| < 32768
    ∧ (FixedPoint.fromFloat (-33 / 10)).getRaw = ⌈(-33 / 10 : ℚ) * 256⌉
    ∧ ⌈(-33 / 10 : ℚ) * 256⌉ = -844 :=
  ⟨by norm_num [abs_lt],
    (C13_fromFloat_truncates (-33 / 10) (by norm_num [abs_lt])).2.1 (by norm_num),
    Int.ceil_eq_iff.mpr (by norm_num)⟩

/-- C14 (integer round trip). For `n` in [-128, 127], `fromInt n` has raw `n * 256`
and `toInt` gives `n` back; `toInt` is the floor of `raw / 256`, so raw -128 (the
value -0.5) has `toInt` -1. -/
theorem C14_fromInt_round_trip (n : Int) (h0 : -128 ≤ n) (h1 : n ≤ 127) :
    (FixedPoint.fromInt n).getRaw = n * 256
    ∧ (FixedPoint.fromInt n).toInt = n
    ∧ (∀ raw : Int, (FixedPoint.mk raw).toInt = ⌊(raw : ℚ) / 256⌋)
    ∧ (FixedPoint.mk (-128)).toInt = -1 := by
  have hraw : (FixedPoint.fromInt n).value = n * 256 := by
    unfold FixedPoint.fromInt toInt16 toInt32
    simp only [FixedPoint.FRACTIONAL_BITS]
    norm_num
    omega
  refine ⟨hraw, ?_, ?_, by decide⟩
  · unfold FixedPoint.toInt
    rw [hraw]
    simp only [FixedPoint.FRACTIONAL_BITS, Int.shiftRight_eq_div_pow]
    norm_num
  · intro raw
    unfold FixedPoint.toInt
    simp only [FixedPoint.FRACTIONAL_BITS, Int.shiftRight_eq_div_pow]
    have := Rat.floor_intCast_div_natCast raw 256
    simpa using this.symm

/-- Witness of C14: `n = 1`, raw 256. -/
theorem C14_fromInt_round_trip_witness :
    ((-128 : Int) ≤ 1 ∧ (1 : Int) ≤ 127)
    ∧ (FixedPoint.fromInt 1).getRaw = 1 * 256
    ∧ (FixedPoint.fromInt 1).toInt = 1 :=
  have h := C14_fromInt_round_trip 1 (by decide) (by decide)
  ⟨by decide, h.1, h.2.1⟩

/-- C15 (divide does not saturate). For a raw value `x` of `int16_t` and a raw value
`y ≠ 0`, the raw value of the quotient lies in [-32768, 32767] and differs by a
multiple of 2^16 from `(x * 256) / y` truncated toward zero; inside the range it is
that truncated quotient; nothing is clamped: raw 32767 divided by raw 1 is raw
-256. -/
theorem C15_div_wraps (x y : Int) (hx0 : -32768 ≤ x) (hx1 : x ≤ 32767) (hy : y ≠ 0) :
    (-32768 ≤ (FixedPoint.div ⟨x⟩ ⟨y⟩).getRaw ∧ (FixedPoint.div ⟨x⟩ ⟨y⟩).getRaw ≤ 32767)
    ∧ ((FixedPoint.div ⟨x⟩ ⟨y⟩).getRaw - truncQ (((x * 256 : Int) : ℚ) / (y : ℚ))) % 65536 = 0
    ∧ (-32768 ≤ truncQ (((x * 256 : Int) : ℚ) / (y : ℚ))
        → truncQ (((x * 256 : Int) : ℚ) / (y : ℚ)) ≤ 32767
        → (FixedPoint.div ⟨x⟩ ⟨y⟩).getRaw = truncQ (((x * 256 : Int) : ℚ) / (y : ℚ)))
    ∧ (FixedPoint.div ⟨32767⟩ ⟨1⟩).getRaw = -256 := by
  have hnum : toInt32 (x * 2 ^ FixedPoint.FRACTIONAL_BITS) = x * 256 := by
    unfold toInt32; simp only [FixedPoint.FRACTIONAL_BITS]; norm_num; omega
  have hq := tdiv_eq_truncQ (x * 256) y hy
  have hqb : -8388608 ≤ Int.tdiv (x * 256) y ∧ Int.tdiv (x * 256) y ≤ 8388608 := by
    have habs : (Int.tdiv (x * 256) y).natAbs ≤ (x * 256).natAbs := by
      rw [Int.natAbs_tdiv]; exact Nat.div_le_self _ _
    omega
  have hraw : (FixedPoint.div ⟨x⟩ ⟨y⟩).getRaw = toInt16 (Int.tdiv (x * 256) y) := by
    unfold FixedPoint.div FixedPoint.getRaw
    simp only [hnum]
    rw [toInt32_of_range _ (by omega) (by omega)]
  rw [hraw, hq]
  refine ⟨toInt16_range _, toInt16_congr _, ?_, by decide⟩
  intro h0 h1
  exact toInt16_of_range _ h0 h1

/-- Witness of C15: raw -7 divided by raw 512 (2.0) is raw -3, from -3.5. -/
theorem C15_div_wraps_witness :
    ((-32768 : Int) ≤ -7 ∧ (-7 : Int) ≤ 32767 ∧ (512 : Int) ≠ 0)
    ∧ ((FixedPoint.div ⟨-7⟩ ⟨512⟩).getRaw
        - truncQ (((-7 * 256 : Int) : ℚ) / ((512 : Int) : ℚ))) % 65536 = 0
    ∧ (FixedPoint.div ⟨-7⟩ ⟨512⟩).getRaw = -3 :=
  ⟨by decide,
    (C15_div_wraps (-7) 512 (by decide) (by decide) (by decide)).2.1,
    by decide⟩

/-! ## Registers -/

theorem toFloat32_eleven_twentieths : toFloat32 (11 / 20) = 9227469 / 16777216 := by
  have hpos : (0 : ℚ) < |(11 / 20 : ℚ)| := by norm_num
  have hlog : Int.log 2 |(11 / 20 : ℚ)| = -1 := by
    apply le_antisymm
    · have : |(11 / 20 : ℚ)| < ((2 : ℕ) : ℚ) ^ (0 : ℤ) := by norm_num [abs_lt]
      have := (Int.lt_zpow_iff_log_lt (by norm_num) hpos).mp this
      omega
    · have : ((2 : ℕ) : ℚ) ^ (-1 : ℤ) ≤ |(11 / 20 : ℚ)| := by
        rw [abs_of_pos (by norm_num)]; norm_num
      exact (Int.zpow_le_iff_le_log (by norm_num) hpos).mp this
  unfold toFloat32 roundToPrec
  rw [if_neg (by norm_num), hlog]
  have hq : (11 / 20 : ℚ) / 2 ^ ((-1 : ℤ) - (((24 : ℕ) : ℤ) - 1)) = 46137344 / 5 := by
    norm_num [zpow_neg]
  have hr : roundHalfEven (46137344 / 5) = 9227469 := by
    unfold roundHalfEven
    have hf : ⌊(46137344 / 5 : ℚ)⌋ = 9227468 := by
      rw [Int.floor_eq_iff]; norm_num
    simp only [hf]
    norm_num
  simp only [hq, hr]
  norm_num [zpow_neg]

/-- C16, amended. For every scale factor `s` with `0 ≤ s` and `s * 256 < 65536` (every
valid factor in [0.5, 1.0] is such), after `setScaleFactor s` the register holds
`floor(s * 256)`, that is `s * 256` with its fraction discarded; this is
`round(s * 256)` exactly when the fractional part of `s * 256` is below 1/2. -/
theorem C16_scale_factor_truncated (self : ConfigRegisters) (s : ℚ) (h0 : 0 ≤ s)
    (h1 : s * 256 < 65536) :
    ((self.setScaleFactor s).getScaleFactorRaw : Int) = ⌊s * 256⌋
    ∧ (((self.setScaleFactor s).getScaleFactorRaw : Int) = round (s * 256)
        ↔ Int.fract (s * 256) < 1 / 2) := by
  have hq0 : (0 : ℚ) ≤ s * 256 := by positivity
  have hf0 : 0 ≤ ⌊s * 256⌋ := Int.floor_nonneg.mpr hq0
  have hf1 : ⌊s * 256⌋ < 65536 := Int.floor_lt.mpr (by push_cast; linarith)
  have hraw : ((self.setScaleFactor s).getScaleFactorRaw : Int) = ⌊s * 256⌋ := by
    unfold ConfigRegisters.setScaleFactor ConfigRegisters.getScaleFactorRaw toUInt16 truncQ
    rw [if_pos hq0]
    dsimp only
    omega
  refine ⟨hraw, ?_⟩
  rw [hraw, round_eq, eq_comm, Int.floor_eq_iff]
  have hfr : Int.fract (s * 256) = s * 256 - ⌊s * 256⌋ := rfl
  have hfl := Int.floor_le (s * 256)
  rw [hfr]
  constructor
  · rintro ⟨_, h⟩; linarith
  · intro h; constructor <;> linarith

/-- Witness of C16: `s = 0.75`, register 192. -/
theorem C16_scale_factor_truncated_witness :
    ((0 : ℚ) ≤ 3 / 4 ∧ (3 / 4 : ℚ) * 256 < 65536)
    ∧ ((ConfigRegisters.init.setScaleFactor (3 / 4)).getScaleFactorRaw : Int)
        = ⌊(3 / 4 : ℚ) * 256⌋
    ∧ ⌊(3 / 4 : ℚ) * 256⌋ = 192 :=
  ⟨by norm_num,
    (C16_scale_factor_truncated ConfigRegisters.init (3 / 4) (by norm_num) (by norm_num)).1,
    by norm_num⟩

/-- Counterexample to C16 as stated: the valid scale factor 0.55, as the exact value
11/20 and as the `float` nearest to it, 9227469/16777216. The register holds 140
while `round(s * 256)` is 141. -/
theorem C16_counterexample :
    toFloat32 (11 / 20) = 9227469 / 16777216
    ∧ (ConfigRegisters.init.setScaleFactor (9227469 / 16777216)).getScaleFactorRaw = 140
    ∧ round ((9227469 / 16777216 : ℚ) * 256) = 141
    ∧ (ConfigRegisters.init.setScaleFactor (11 / 20)).getScaleFactorRaw = 140
    ∧ round ((11 / 20 : ℚ) * 256) = 141 := by
  have ha : truncQ ((9227469 / 16777216 : ℚ) * 256) = 140 := by
    unfold truncQ; rw [if_pos (by norm_num), Int.floor_eq_iff]; norm_num
  have hb : truncQ ((11 / 20 : ℚ) * 256) = 140 := by
    unfold truncQ; rw [if_pos (by norm_num), Int.floor_eq_iff]; norm_num
  refine ⟨toFloat32_eleven_twentieths, ?_, ?_, ?_, ?_⟩
  · unfold ConfigRegisters.setScaleFactor ConfigRegisters.getScaleFactorRaw
    simp only [ha]; decide
  · rw [round_eq, Int.floor_eq_iff]; norm_num
  · unfold ConfigRegisters.setScaleFactor ConfigRegisters.getScaleFactorRaw
    simp only [hb]; decide
  · rw [round_eq, Int.floor_eq_iff]; norm_num

theorem body_status_flags (inputMemory : MemoryBank) (xr yr : ℚ) (W T outY outX : Nat)
    (st : ScanState) :
    (processSequential.body inputMemory xr yr W T outY outX st).self.status.busy
        = st.self.status.busy
    ∧ (processSequential.body inputMemory xr yr W T outY outX st).self.status.ready
        = st.self.status.ready := by
  unfold processSequential.body
  simp only [interpolatePixel]
  split <;> exact ⟨rfl, rfl⟩

/-- C17 (busy and ready are mutually exclusive). After any sequence of `setBusy`,
`setProgress` and `setError` calls on a fresh `StatusRegisters` (the empty sequence
is the initial state) `isReady` is the negation of `isBusy`; `setBusy` establishes
this from any state, the loop body of `processSequential` changes neither flag, so
it holds after line 77, after any number of loop iterations and at the return. -/
theorem C17_busy_ready_exclusive :
    (∀ calls : List StatusCall,
      (StatusRegisters.afterCalls calls).isReady = !(StatusRegisters.afterCalls calls).isBusy)
    ∧ (∀ (s : StatusRegisters) (state : Bool),
        (s.setBusy state).isReady = !(s.setBusy state).isBusy)
    ∧ (∀ (inputMemory : MemoryBank) (xr yr : ℚ) (W T : Nat) (steps : List (Nat × Nat))
        (st : ScanState), st.self.status.isReady = !st.self.status.isBusy →
        (steps.foldl (fun st p => processSequential.body inputMemory xr yr W T p.1 p.2 st)
          st).self.status.isReady
        = !(steps.foldl (fun st p => processSequential.body inputMemory xr yr W T p.1 p.2 st)
          st).self.status.isBusy)
    ∧ (∀ (self : BilinearInterpolator) (inputMemory : MemoryBank) (outputPixels : List Nat)
        (outputWidth outputHeight : Nat),
        (processSequential self inputMemory outputPixels outputWidth outputHeight).1.status.isReady
        = !(processSequential self inputMemory outputPixels outputWidth
            outputHeight).1.status.isBusy) := by
  refine ⟨?_, fun s state => rfl, ?_, fun _ _ _ _ _ => rfl⟩
  · intro calls
    have gen : ∀ (cs : List StatusCall) (s : StatusRegisters), s.isReady = !s.isBusy →
        (cs.foldl StatusCall.run s).isReady = !(cs.foldl StatusCall.run s).isBusy := by
      intro cs
      induction cs with
      | nil => intro s hs; exact hs
      | cons c cs ih =>
        intro s hs
        rw [List.foldl_cons]
        apply ih
        cases c with
        | setBusy state => rfl
        | setProgress value => exact hs
        | setError code => exact hs
    exact gen calls StatusRegisters.init rfl
  · intro inputMemory xr yr W T steps
    induction steps with
    | nil => intro st hs; exact hs
    | cons p ps ih =>
      intro st hs
      rw [List.foldl_cons]
      apply ih
      obtain ⟨hb, hr⟩ := body_status_flags inputMemory xr yr W T p.1 p.2 st
      unfold StatusRegisters.isReady StatusRegisters.isBusy at hs ⊢
      rw [hb, hr]; exact hs


/-! ## Degenerate ratios and the progress register -/

theorem src_zero (out : Nat) : processSequential.src 0 out = 0 := by
  unfold processSequential.src
  rw [zero_mul, toFloat64_zero, toFloat32_zero]

theorem ratio_one (inSize : Nat) : processSequential.ratio inSize 1 = 0 := by
  unfold processSequential.ratio
  rw [if_neg (by decide)]

theorem pixelByte_eq (self : BilinearInterpolator) (inputMemory : MemoryBank) (xr yr : ℚ)
    (outX outY : Nat) (verbose : Bool) :
    pixelByte inputMemory xr yr outX outY
      = toUInt8 (interpolatePixel self inputMemory (processSequential.src xr outX)
          (processSequential.src yr outY) verbose).1.toInt :=
  rfl

/-- At the coordinate (0,0) both offsets are zero and the first neighbour is the
sample at (0,0), for every bank. -/
theorem locals_origin (memory : MemoryBank) :
    (interpolatePixel.locals memory 0 0).a = ⟨0⟩
    ∧ (interpolatePixel.locals memory 0 0).b = ⟨0⟩
    ∧ (interpolatePixel.locals memory 0 0).p00 = memory.readPixel 0 0 := by
  have hx0 : (interpolatePixel.locals memory 0 0).x0 = 0 := by
    rw [locals_x0, Int.floor_zero]
    unfold toInt32; omega
  have hy0 : (interpolatePixel.locals memory 0 0).y0 = 0 := by
    rw [locals_y0, Int.floor_zero]
    unfold toInt32; omega
  have hf : toFloat32 (((0 : Int) : ℚ)) = 0 := by rw [Int.cast_zero]; exact toFloat32_zero
  have hu : toUInt32 0 = 0 := by decide
  refine ⟨?_, ?_, ?_⟩
  · rw [locals_a, hx0, hf, sub_zero, toFloat32_zero, fromFloat_zero]
  · rw [locals_b, hy0, hf, sub_zero, toFloat32_zero, fromFloat_zero]
  · rw [locals_p00, hx0, hy0, hu]

theorem pixelByte_origin (bank : MemoryBank) (hbytes : ∀ p ∈ bank.data, p < 256) :
    pixelByte bank 0 0 0 0 = bank.readPixel 0 0 := by
  obtain ⟨ha, hb, hp⟩ := locals_origin bank
  have hle := readPixel_le bank hbytes 0 0
  have hsum : (interpolatePixel.locals bank 0 0).interp_sum = bank.readPixel 0 0 := by
    rw [locals_interp_sum_eq, ha, hb, satSum_00 _ _ _ _ (by rw [hp]; exact hle), hp]
  unfold pixelByte
  have h0 : toFloat32 (toFloat64 ((0 : ℚ) * toFloat64 ((0 : Nat) : ℚ))) = 0 := src_zero 0
  rw [h0, hsum, toUInt8_toInt_fromInt _ (by omega) (by omega)]
  simp

/-- C18 (degenerate output dimension). The ratio for an output dimension of 1 is 0 and
the source coordinate computed from it is 0 for every output index. With
`outputWidth = 1` every output sample is `interpolatePixel` at source x 0, with
`outputHeight = 1` at source y 0; and for a bank of byte samples the 1x1 raster is the
single byte `readPixel 0 0`. -/
theorem C18_degenerate_dimension (self : BilinearInterpolator) (bank : MemoryBank)
    (outputPixels : List Nat) (hbytes : ∀ p ∈ bank.data, p < 256) :
    (∀ inSize out : Nat, processSequential.ratio inSize 1 = 0
        ∧ processSequential.src (processSequential.ratio inSize 1) out = 0)
    ∧ (∀ (H outY : Nat) (verbose : Bool), H < 4294967296 → outY < H →
        (processSequential self bank outputPixels 1 H).2[outY * 1 + 0]?
          = some (toUInt8 (interpolatePixel self bank 0
              (processSequential.src (processSequential.ratio bank.getHeight H) outY)
              verbose).1.toInt))
    ∧ (∀ (W outX : Nat) (verbose : Bool), W < 4294967296 → outX < W →
        (processSequential self bank outputPixels W 1).2[0 * W + outX]?
          = some (toUInt8 (interpolatePixel self bank
              (processSequential.src (processSequential.ratio bank.getWidth W) outX) 0
              verbose).1.toInt))
    ∧ (processSequential self bank outputPixels 1 1).2 = [bank.readPixel 0 0] := by
  refine ⟨fun inSize out => ⟨ratio_one inSize, by rw [ratio_one, src_zero]⟩, ?_, ?_, ?_⟩
  · intro H outY verbose hH hy
    obtain ⟨xr, yr, hxr, hyr, _, hpix⟩ :=
      processSequential_output self bank outputPixels 1 H (by unfold U32; omega)
    have hx0 : xr = 0 := by rw [hxr]; rfl
    have hy' : yr = processSequential.ratio bank.getHeight H := by rw [hyr]; rfl
    rw [hpix 0 outY (by decide) hy, pixelByte_eq self bank xr yr 0 outY verbose, hx0, hy',
      src_zero]
  · intro W outX verbose hW hx
    obtain ⟨xr, yr, hxr, hyr, _, hpix⟩ :=
      processSequential_output self bank outputPixels W 1 (by unfold U32; omega)
    have hy0 : yr = 0 := by rw [hyr]; rfl
    have hx' : xr = processSequential.ratio bank.getWidth W := by rw [hxr]; rfl
    rw [hpix outX 0 hx (by decide), pixelByte_eq self bank xr yr outX 0 verbose, hy0, hx',
      src_zero]
  · obtain ⟨xr, yr, hxr, hyr, hlen, hpix⟩ :=
      processSequential_output self bank outputPixels 1 1 (by decide)
    have hx0 : xr = 0 := by rw [hxr]; rfl
    have hy0 : yr = 0 := by rw [hyr]; rfl
    have h := hpix 0 0 (by decide) (by decide)
    rw [hx0, hy0, pixelByte_origin bank hbytes] at h
    obtain ⟨a, ha⟩ := List.length_eq_one.mp hlen
    rw [ha] at h ⊢
    simp at h
    rw [h]

/-- Witness of C18: the 2x2 bank `[10,20,30,40]` scaled to a 1x1 raster. -/
theorem C18_degenerate_dimension_witness :
    (∀ p ∈ bank2x2.data, p < 256)
    ∧ (processSequential regsUsed bank2x2 [7, 7, 7] 1 1).2 = [bank2x2.readPixel 0 0]
    ∧ bank2x2.readPixel 0 0 = 10 :=
  ⟨by decide, (C18_degenerate_dimension regsUsed bank2x2 [7, 7, 7] (by decide)).2.2.2, by decide⟩

/-- The loop body changes the progress register exactly as `progressWrite` says. -/
theorem body_status (inputMemory : MemoryBank) (xr yr : ℚ) (W T outY outX : Nat)
    (st : ScanState) :
    (processSequential.body inputMemory xr yr W T outY outX st).self.status
      = match processSequential.progressWrite W T outY outX with
        | some v => st.self.status.setProgress v
        | none => st.self.status := by
  unfold processSequential.body processSequential.progressWrite
  simp only [interpolatePixel]
  split <;> rfl

/-- A value written in the loop, for a raster of at most 512*512 samples. -/
theorem progressWrite_spec (W H r c v : Nat) (hr : r < H) (hc : c < W)
    (hN : W * H ≤ 262144)
    (h : processSequential.progressWrite W (W * H % U32) r c = some v) :
    r * W + c + 1 ≤ W * H ∧ v = (r * W + c + 1) * 100 / (W * H) := by
  have hidx : r * W + c + 1 ≤ W * H := by
    have : (r + 1) * W ≤ H * W := Nat.mul_le_mul_right W hr
    have e1 : (r + 1) * W = r * W + W := by ring
    have e2 : H * W = W * H := Nat.mul_comm H W
    omega
  refine ⟨hidx, ?_⟩
  have hT : W * H % U32 = W * H := Nat.mod_eq_of_lt (by unfold U32; omega)
  have hcp : (r * W + c + 1) % U32 = r * W + c + 1 := Nat.mod_eq_of_lt (by unfold U32; omega)
  have h100 : (r * W + c + 1) * 100 % U32 = (r * W + c + 1) * 100 :=
    Nat.mod_eq_of_lt (by unfold U32; omega)
  unfold processSequential.progressWrite at h
  simp only [hT, hcp, h100] at h
  split at h
  · exact (Option.some.inj h).symm
  · exact absurd h (by simp)

theorem progressWrite_le (W H r c v : Nat) (hr : r < H) (hc : c < W)
    (hN : W * H ≤ 262144)
    (h : processSequential.progressWrite W (W * H % U32) r c = some v) : v ≤ 100 := by
  obtain ⟨hidx, hv⟩ := progressWrite_spec W H r c v hr hc hN h
  rw [hv]
  exact Nat.div_le_of_le_mul (by have := Nat.mul_le_mul_right 100 hidx; omega)

theorem progressWrite_mono (W H r c v r' c' v' : Nat) (hr : r < H) (hc : c < W)
    (hr' : r' < H) (hc' : c' < W) (hN : W * H ≤ 262144)
    (hle : r * W + c ≤ r' * W + c')
    (h : processSequential.progressWrite W (W * H % U32) r c = some v)
    (h' : processSequential.progressWrite W (W * H % U32) r' c' = some v') : v ≤ v' := by
  obtain ⟨_, hv⟩ := progressWrite_spec W H r c v hr hc hN h
  obtain ⟨_, hv'⟩ := progressWrite_spec W H r' c' v' hr' hc' hN h'
  rw [hv, hv']
  exact Nat.div_le_div_right (Nat.mul_le_mul_right 100 (by omega))

/-- The writes of the loop, without the reset before and the 100 after. -/
theorem loopWrites_spec (W H : Nat) (hN : W * H ≤ 262144) :
    (∀ v ∈ (List.range H).flatMap (fun outY => (List.range W).filterMap (fun outX =>
        processSequential.progressWrite W (W * H % U32) outY outX)), v ≤ 100)
    ∧ List.Pairwise (· ≤ ·) ((List.range H).flatMap (fun outY =>
        (List.range W).filterMap (fun outX =>
          processSequential.progressWrite W (W * H % U32) outY outX))) := by
  constructor
  · intro v hv
    rw [List.mem_flatMap] at hv
    obtain ⟨r, hr, hv⟩ := hv
    rw [List.mem_filterMap] at hv
    obtain ⟨c, hc, hv⟩ := hv
    exact progressWrite_le W H r c v (List.mem_range.mp hr) (List.mem_range.mp hc) hN hv
  · rw [List.pairwise_flatMap]
    constructor
    · intro r hr
      refine List.Pairwise.filterMap _ ?_ ((List.pairwise_lt_range W).imp_of_mem
        (S := fun c c' => c < W ∧ c' < W ∧ c < c') ?_)
      · intro c c' hcc v hv v' hv'
        exact progressWrite_mono W H r c v r c' v' (List.mem_range.mp hr) hcc.1
          (List.mem_range.mp hr) hcc.2.1 hN (by omega) hv hv'
      · intro c c' hc hc' hlt
        exact ⟨List.mem_range.mp hc, List.mem_range.mp hc', hlt⟩
    · refine (List.pairwise_lt_range H).imp_of_mem ?_
      intro r r' hr hr' hlt v hv v' hv'
      rw [List.mem_filterMap] at hv hv'
      obtain ⟨c, hc, hv⟩ := hv
      obtain ⟨c', hc', hv'⟩ := hv'
      have hcW := List.mem_range.mp hc
      have hle : r * W + c ≤ r' * W + c' := by
        have : (r + 1) * W ≤ r' * W := Nat.mul_le_mul_right W hlt
        have e1 : (r + 1) * W = r * W + W := by ring
        omega
      exact progressWrite_mono W H r c v r' c' v' (List.mem_range.mp hr) hcW
        (List.mem_range.mp hr') (List.mem_range.mp hc') hN hle hv hv'

/-- The inner loop performs the `setProgress` calls listed by `progressWrite`. -/
theorem row_status (inputMemory : MemoryBank) (xr yr : ℚ) (W T r : Nat) (xs : List Nat) :
    ∀ st : ScanState,
      (xs.foldl (fun st x => processSequential.body inputMemory xr yr W T r x st) st).self.status
        = (xs.filterMap (fun x => processSequential.progressWrite W T r x)).foldl
            (fun s v => s.setProgress v) st.self.status := by
  induction xs with
  | nil => intro st; rfl
  | cons x xs ih =>
    intro st
    rw [List.foldl_cons, ih, body_status, List.filterMap_cons]
    cases processSequential.progressWrite W T r x with
    | none => rfl
    | some v => rfl

/-- The nested loops perform the `setProgress` calls of all rows in order. -/
theorem scan_status (inputMemory : MemoryBank) (xr yr : ℚ) (W T : Nat) (rs : List Nat) :
    ∀ st : ScanState,
      (rs.foldl (fun st r => (List.range W).foldl
          (fun st x => processSequential.body inputMemory xr yr W T r x st) st) st).self.status
        = (rs.flatMap (fun r => (List.range W).filterMap
            (fun x => processSequential.progressWrite W T r x))).foldl
            (fun s v => s.setProgress v) st.self.status := by
  induction rs with
  | nil => intro st; rfl
  | cons r rs ih =>
    intro st
    rw [List.foldl_cons, ih, row_status, List.flatMap_cons, List.foldl_append]

/-- The status registers at the return of `processSequential`: `setBusy(true)`, one
`setProgress` per entry of `progressWrites`, `setBusy(false)`. -/
theorem processSequential_status (self : BilinearInterpolator) (inputMemory : MemoryBank)
    (outputPixels : List Nat) (W H : Nat) :
    (processSequential self inputMemory outputPixels W H).1.status
      = ((processSequential.progressWrites W H).foldl (fun s v => s.setProgress v)
          (self.status.setBusy true)).setBusy false := by
  unfold processSequential processSequential.run processSequential.progressWrites
  simp only []
  rw [scan_status, List.foldl_append, List.foldl_append]
  rfl

/-- The loop body appends to the history exactly the value it writes, if any. -/
theorem body_progressLog (inputMemory : MemoryBank) (xr yr : ℚ) (W T outY outX : Nat)
    (st : ScanState) :
    (processSequential.body inputMemory xr yr W T outY outX st).progressLog
      = st.progressLog ++ (processSequential.progressWrite W T outY outX).toList := by
  unfold processSequential.body processSequential.progressWrite
  dsimp only
  split
  · rfl
  · exact (List.append_nil _).symm

/-- The history after the inner loop. -/
theorem row_progressLog (inputMemory : MemoryBank) (xr yr : ℚ) (W T r : Nat) (xs : List Nat) :
    ∀ st : ScanState,
      (xs.foldl (fun st x => processSequential.body inputMemory xr yr W T r x st)
          st).progressLog
        = st.progressLog
          ++ xs.filterMap (fun x => processSequential.progressWrite W T r x) := by
  induction xs with
  | nil => intro st; exact (List.append_nil _).symm
  | cons x xs ih =>
    intro st
    rw [List.foldl_cons, ih, body_progressLog, List.filterMap_cons, List.append_assoc]
    cases processSequential.progressWrite W T r x with
    | none => rfl
    | some v => rfl

/-- The history after the nested loops. -/
theorem scan_progressLog (inputMemory : MemoryBank) (xr yr : ℚ) (W T : Nat) (rs : List Nat) :
    ∀ st : ScanState,
      (rs.foldl (fun st r => (List.range W).foldl
          (fun st x => processSequential.body inputMemory xr yr W T r x st) st)
          st).progressLog
        = st.progressLog ++ rs.flatMap (fun r => (List.range W).filterMap
            (fun x => processSequential.progressWrite W T r x)) := by
  induction rs with
  | nil => intro st; exact (List.append_nil _).symm
  | cons r rs ih =>
    intro st
    rw [List.foldl_cons, ih, row_progressLog, List.flatMap_cons, List.append_assoc]

/-- The history of `setProgress` calls at the return of `processSequential`. -/
theorem run_progressLog (self : BilinearInterpolator) (inputMemory : MemoryBank)
    (outputPixels : List Nat) (W H : Nat) :
    (processSequential.run self inputMemory outputPixels W H).progressLog
      = processSequential.progressWrites W H := by
  unfold processSequential.run processSequential.progressWrites
  dsimp only
  rw [scan_progressLog]

/-- The registers at the return of `processSequential.run`: `setBusy(true)`, one
`setProgress` per entry of the history, `setBusy(false)`. -/
theorem run_status (self : BilinearInterpolator) (inputMemory : MemoryBank)
    (outputPixels : List Nat) (W H : Nat) :
    (processSequential.run self inputMemory outputPixels W H).self.status
      = ((processSequential.run self inputMemory outputPixels W H).progressLog.foldl
          (fun s v => s.setProgress v) (self.status.setBusy true)).setBusy false := by
  rw [run_progressLog]
  exact processSequential_status self inputMemory outputPixels W H

/-- C19 (the progress register stays a percentage). For a raster of 1 to 512*512
samples: the divisor `totalPixels` of the progress update is not zero; every argument
of a `setProgress` call that `processSequential` makes (the reset to 0, the calls of
the loop, the final 100), as recorded in call order by the history `progressLog` of the
run, is at most 100; and that sequence never decreases. The history is the list
`progressWrites`, it starts with the reset to 0, the registers at the return are
`setBusy(true)`, one `setProgress` per entry of the history, `setBusy(false)`, and an
iteration of the loop body extends the history by the value it writes to the register,
if it writes one. -/
theorem C19_progress_is_percentage (self : BilinearInterpolator) (inputMemory : MemoryBank)
    (outputPixels : List Nat) (outputWidth outputHeight : Nat)
    (h1 : 1 ≤ outputWidth * outputHeight) (h2 : outputWidth * outputHeight ≤ 512 * 512) :
    outputWidth * outputHeight % U32 ≠ 0
    ∧ (∀ v ∈ (processSequential.run self inputMemory outputPixels outputWidth
          outputHeight).progressLog, v ≤ 100)
    ∧ List.Pairwise (· ≤ ·) (processSequential.run self inputMemory outputPixels outputWidth
          outputHeight).progressLog
    ∧ (processSequential.run self inputMemory outputPixels outputWidth
          outputHeight).progressLog = processSequential.progressWrites outputWidth outputHeight
    ∧ (processSequential.run self inputMemory outputPixels outputWidth
          outputHeight).progressLog.head? = some 0
    ∧ (processSequential self inputMemory outputPixels outputWidth outputHeight
        = ((processSequential.run self inputMemory outputPixels outputWidth outputHeight).self,
            (processSequential.run self inputMemory outputPixels outputWidth
              outputHeight).outputPixels))
    ∧ ((processSequential self inputMemory outputPixels outputWidth outputHeight).1.status
        = ((processSequential.run self inputMemory outputPixels outputWidth
              outputHeight).progressLog.foldl
            (fun s v => s.setProgress v) (self.status.setBusy true)).setBusy false)
    ∧ ∀ (xr yr : ℚ) (outY outX : Nat) (st : ScanState),
        (processSequential.body inputMemory xr yr outputWidth
            (outputWidth * outputHeight % U32) outY outX st).self.status
          = (match processSequential.progressWrite outputWidth
              (outputWidth * outputHeight % U32) outY outX with
            | some v => st.self.status.setProgress v
            | none => st.self.status)
        ∧ (processSequential.body inputMemory xr yr outputWidth
            (outputWidth * outputHeight % U32) outY outX st).progressLog
          = st.progressLog ++ (processSequential.progressWrite outputWidth
              (outputWidth * outputHeight % U32) outY outX).toList := by
  have hN : outputWidth * outputHeight ≤ 262144 := by omega
  obtain ⟨hle, hpw⟩ := loopWrites_spec outputWidth outputHeight hN
  have hlog := run_progressLog self inputMemory outputPixels outputWidth outputHeight
  refine ⟨?_, ?_, ?_, hlog, ?_, rfl,
    run_status self inputMemory outputPixels outputWidth outputHeight,
    fun xr yr outY outX st => ⟨body_status _ _ _ _ _ _ _ _, body_progressLog _ _ _ _ _ _ _ _⟩⟩
  · rw [Nat.mod_eq_of_lt (by unfold U32; omega)]; omega
  · intro v hv
    rw [hlog] at hv
    unfold processSequential.progressWrites at hv
    simp only [List.mem_append, List.mem_singleton] at hv
    rcases hv with (hv | hv) | hv
    · omega
    · exact hle v hv
    · omega
  · rw [hlog]
    unfold processSequential.progressWrites
    dsimp only
    rw [List.pairwise_append, List.pairwise_append]
    refine ⟨⟨List.pairwise_singleton _ _, hpw, fun a _ b _ => ?_⟩,
      List.pairwise_singleton _ _, fun a ha b hb => ?_⟩
    · rw [List.mem_singleton.mp ‹a ∈ [0]›]; exact Nat.zero_le b
    · rw [List.mem_singleton.mp hb]
      rcases List.mem_append.mp ha with h0 | hmid
      · rw [List.mem_singleton.mp h0]; omega
      · exact hle a hmid
  · rw [hlog]; rfl

/-- Witness of C19: the 2x2 bank scaled to a 3x3 raster, where the calls are
`setProgress` of 0, 11, 22, ..., 88, 100 and 100, in this order. -/
theorem C19_progress_is_percentage_witness :
    (1 ≤ 3 * 3 ∧ 3 * 3 ≤ 512 * 512)
    ∧ (processSequential.run regsUsed bank2x2 [] 3 3).progressLog
        = [0, 11, 22, 33, 44, 55, 66, 77, 88, 100, 100]
    ∧ (∀ v ∈ (processSequential.run regsUsed bank2x2 [] 3 3).progressLog, v ≤ 100)
    ∧ List.Pairwise (· ≤ ·) (processSequential.run regsUsed bank2x2 [] 3 3).progressLog :=
  have h := C19_progress_is_percentage regsUsed bank2x2 [] 3 3 (by decide) (by decide)
  ⟨by decide, h.2.2.2.1.trans (by decide), h.2.1, h.2.2.1⟩

/-- The saturated sum of `interpolatePixel` is the saturation of `unsaturated`. -/
theorem locals_interp_sum_unsaturated (memory : MemoryBank) (x y : ℚ) :
    (interpolatePixel.locals memory x y).interp_sum
      = (if interpolatePixel.unsaturated memory x y > 255 then 255
         else if interpolatePixel.unsaturated memory x y < 0 then 0
         else interpolatePixel.unsaturated memory x y) :=
  rfl

theorem weights_eq (a b : ℚ) :
    bilinear_interpolate_q88.weights a b
      = ((toInt16 (256 - (FixedPoint.fromFloat a).value)
            * toInt16 (256 - (FixedPoint.fromFloat b).value)) >>> (8 : Nat),
         ((FixedPoint.fromFloat a).value
            * toInt16 (256 - (FixedPoint.fromFloat b).value)) >>> (8 : Nat),
         (toInt16 (256 - (FixedPoint.fromFloat a).value)
            * (FixedPoint.fromFloat b).value) >>> (8 : Nat),
         ((FixedPoint.fromFloat a).value * (FixedPoint.fromFloat b).value) >>> (8 : Nat)) := by
  unfold bilinear_interpolate_q88.weights
  rw [fromInt_one]
  simp only [FixedPoint.sub, FixedPoint.getRaw]

/-- The result of `bilinear_interpolate_q88` is the saturation of `unsaturated`. -/
theorem bilinear_interpolate_q88_unsaturated (p00 p10 p01 p11 : Nat) (a b : ℚ) :
    bilinear_interpolate_q88 p00 p10 p01 p11 a b
      = (if (if bilinear_interpolate_q88.unsaturated p00 p10 p01 p11 a b > 255 then 255
             else bilinear_interpolate_q88.unsaturated p00 p10 p01 p11 a b) < 0 then 0
         else (if bilinear_interpolate_q88.unsaturated p00 p10 p01 p11 a b > 255 then 255
             else bilinear_interpolate_q88.unsaturated p00 p10 p01 p11 a b)) := by
  unfold bilinear_interpolate_q88.unsaturated
  rw [weights_eq]
  unfold bilinear_interpolate_q88 weightedSum
  rw [fromInt_one]
  simp only [FixedPoint.sub, FixedPoint.getRaw]

/-- The four weights for raw offsets in 0..256: none is negative and they add up to
254 or 256. -/
theorem raw_weights_partition (a b : Int) (ha0 : 0 ≤ a) (ha1 : a ≤ 256) (hb0 : 0 ≤ b)
    (hb1 : b ≤ 256) :
    0 ≤ (toInt16 (256 - a) * toInt16 (256 - b)) >>> (8 : Nat)
    ∧ 0 ≤ (a * toInt16 (256 - b)) >>> (8 : Nat)
    ∧ 0 ≤ (toInt16 (256 - a) * b) >>> (8 : Nat)
    ∧ 0 ≤ (a * b) >>> (8 : Nat)
    ∧ ((toInt16 (256 - a) * toInt16 (256 - b)) >>> (8 : Nat) + (a * toInt16 (256 - b)) >>> (8 : Nat)
        + (toInt16 (256 - a) * b) >>> (8 : Nat) + (a * b) >>> (8 : Nat) = 254
      ∨ (toInt16 (256 - a) * toInt16 (256 - b)) >>> (8 : Nat)
        + (a * toInt16 (256 - b)) >>> (8 : Nat)
        + (toInt16 (256 - a) * b) >>> (8 : Nat) + (a * b) >>> (8 : Nat) = 256) := by
  have h1 : toInt16 (256 - a) = 256 - a := toInt16_of_range _ (by omega) (by omega)
  have h2 : toInt16 (256 - b) = 256 - b := toInt16_of_range _ (by omega) (by omega)
  have hp0 : 0 ≤ a * b := mul_nonneg ha0 hb0
  have hpa : a * b ≤ 256 * a := by nlinarith
  have hpb : a * b ≤ 256 * b := by nlinarith
  have hpc : 256 * a + 256 * b - 65536 ≤ a * b := by nlinarith
  have e00 : (256 - a) * (256 - b) = 65536 - 256 * a - 256 * b + a * b := by ring
  have e10 : a * (256 - b) = 256 * a - a * b := by ring
  have e01 : (256 - a) * b = 256 * b - a * b := by ring
  rw [h1, h2, e00, e10, e01]
  simp only [Int.shiftRight_eq_div_pow]
  generalize a * b = p at *
  norm_num
  omega

/-- With weights that are not negative and add up to at most 256, the weighted sum of
byte samples lies between 0 and any bound `M` of the samples. -/
theorem weightedSum_le (p00 p10 p01 p11 M : Nat) (w00 w10 w01 w11 : Int)
    (h00 : p00 ≤ M) (h10 : p10 ≤ M) (h01 : p01 ≤ M) (h11 : p11 ≤ M) (hM : M ≤ 255)
    (hw00 : 0 ≤ w00) (hw10 : 0 ≤ w10) (hw01 : 0 ≤ w01) (hw11 : 0 ≤ w11)
    (hsum : w00 + w10 + w01 + w11 ≤ 256) :
    0 ≤ weightedSum p00 p10 p01 p11 w00 w10 w01 w11
    ∧ weightedSum p00 p10 p01 p11 w00 w10 w01 w11 ≤ M := by
  have c00 : (p00 : Int) ≤ M := by exact_mod_cast h00
  have c10 : (p10 : Int) ≤ M := by exact_mod_cast h10
  have c01 : (p01 : Int) ≤ M := by exact_mod_cast h01
  have c11 : (p11 : Int) ≤ M := by exact_mod_cast h11
  have t00 : 0 ≤ (p00 : Int) * w00 := mul_nonneg (by positivity) hw00
  have t10 : 0 ≤ (p10 : Int) * w10 := mul_nonneg (by positivity) hw10
  have t01 : 0 ≤ (p01 : Int) * w01 := mul_nonneg (by positivity) hw01
  have t11 : 0 ≤ (p11 : Int) * w11 := mul_nonneg (by positivity) hw11
  have u00 : (p00 : Int) * w00 ≤ M * w00 := mul_le_mul_of_nonneg_right c00 hw00
  have u10 : (p10 : Int) * w10 ≤ M * w10 := mul_le_mul_of_nonneg_right c10 hw10
  have u01 : (p01 : Int) * w01 ≤ M * w01 := mul_le_mul_of_nonneg_right c01 hw01
  have u11 : (p11 : Int) * w11 ≤ M * w11 := mul_le_mul_of_nonneg_right c11 hw11
  have hMS : (M : Int) * (w00 + w10 + w01 + w11) ≤ M * 256 :=
    mul_le_mul_of_nonneg_left hsum (by positivity)
  have hexp : (M : Int) * (w00 + w10 + w01 + w11) = M * w00 + M * w10 + M * w01 + M * w11 := by
    ring
  have hT0 : 0 ≤ (p00 : Int) * w00 + (p10 : Int) * w10 + (p01 : Int) * w01 + (p11 : Int) * w11 := by
    omega
  have hT1 : (p00 : Int) * w00 + (p10 : Int) * w10 + (p01 : Int) * w01 + (p11 : Int) * w11
      ≤ M * 256 := by omega
  unfold weightedSum toInt32
  simp only [Int.shiftRight_eq_div_pow]
  generalize (p00 : Int) * w00 + (p10 : Int) * w10 + (p01 : Int) * w01 + (p11 : Int) * w11 = T
    at hT0 hT1 ⊢
  norm_num
  omega

/-- What follows from weights that are not negative and add up to 254 or 256, for
byte samples. -/
theorem weightedSum_of_partition (p00 p10 p01 p11 : Nat) (w00 w10 w01 w11 : Int)
    (h00 : p00 ≤ 255) (h10 : p10 ≤ 255) (h01 : p01 ≤ 255) (h11 : p11 ≤ 255)
    (hw00 : 0 ≤ w00) (hw10 : 0 ≤ w10) (hw01 : 0 ≤ w01) (hw11 : 0 ≤ w11)
    (hsum : w00 + w10 + w01 + w11 = 254 ∨ w00 + w10 + w01 + w11 = 256) :
    (254 ≤ w00 + w10 + w01 + w11 ∧ w00 + w10 + w01 + w11 ≤ 256)
    ∧ (0 ≤ weightedSum p00 p10 p01 p11 w00 w10 w01 w11
      ∧ weightedSum p00 p10 p01 p11 w00 w10 w01 w11 ≤ 255)
    ∧ weightedSum p00 p10 p01 p11 w00 w10 w01 w11
        ≤ ((max (max p00 p10) (max p01 p11) : Nat) : Int) := by
  have hM : max (max p00 p10) (max p01 p11) ≤ 255 := max_le (max_le h00 h10) (max_le h01 h11)
  have hb := weightedSum_le p00 p10 p01 p11 (max (max p00 p10) (max p01 p11)) w00 w10 w01 w11
    (le_trans (le_max_left _ _) (le_max_left _ _))
    (le_trans (le_max_right _ _) (le_max_left _ _))
    (le_trans (le_max_left _ _) (le_max_right _ _))
    (le_trans (le_max_right _ _) (le_max_right _ _))
    hM hw00 hw10 hw01 hw11 (by omega)
  have hM' : ((max (max p00 p10) (max p01 p11) : Nat) : Int) ≤ 255 := by exact_mod_cast hM
  exact ⟨by omega, ⟨hb.1, le_trans hb.2 hM'⟩, hb.2⟩

/-- C21 (the weights form a sub-unit partition). When the raw Q8.8 offsets `a`, `b`
computed by `interpolatePixel` are in 0..256, its four weights are not negative and
add up to a value from 254 to 256; with the bank's samples bytes, the weighted sum
before saturation is in [0,255], so the saturation step returns it unchanged, and it
does not exceed the largest of the four neighbours. The same holds for
`bilinear_interpolate_q88` with all samples in [0,255] and offsets in [0,1]. -/
theorem C21_weights_sub_unit_partition (memory : MemoryBank) (x y : ℚ)
    (hbytes : ∀ p ∈ memory.data, p < 256)
    (ha0 : 0 ≤ (interpolatePixel.locals memory x y).a.getRaw)
    (ha1 : (interpolatePixel.locals memory x y).a.getRaw ≤ 256)
    (hb0 : 0 ≤ (interpolatePixel.locals memory x y).b.getRaw)
    (hb1 : (interpolatePixel.locals memory x y).b.getRaw ≤ 256) :
    (0 ≤ (interpolatePixel.locals memory x y).w00 ∧ 0 ≤ (interpolatePixel.locals memory x y).w10
      ∧ 0 ≤ (interpolatePixel.locals memory x y).w01
      ∧ 0 ≤ (interpolatePixel.locals memory x y).w11)
    ∧ (254 ≤ (interpolatePixel.locals memory x y).w00 + (interpolatePixel.locals memory x y).w10
          + (interpolatePixel.locals memory x y).w01 + (interpolatePixel.locals memory x y).w11
      ∧ (interpolatePixel.locals memory x y).w00 + (interpolatePixel.locals memory x y).w10
          + (interpolatePixel.locals memory x y).w01 + (interpolatePixel.locals memory x y).w11
          ≤ 256)
    ∧ (0 ≤ interpolatePixel.unsaturated memory x y
      ∧ interpolatePixel.unsaturated memory x y ≤ 255)
    ∧ (interpolatePixel.locals memory x y).interp_sum = interpolatePixel.unsaturated memory x y
    ∧ interpolatePixel.unsaturated memory x y
        ≤ ((max (max (interpolatePixel.locals memory x y).p00
                (interpolatePixel.locals memory x y).p10)
              (max (interpolatePixel.locals memory x y).p01
                (interpolatePixel.locals memory x y).p11) : Nat) : Int)
    ∧ ∀ (p00 p10 p01 p11 : Nat) (a b : ℚ), p00 ≤ 255 → p10 ≤ 255 → p01 ≤ 255 → p11 ≤ 255 →
        0 ≤ a → a ≤ 1 → 0 ≤ b → b ≤ 1 →
        (0 ≤ (bilinear_interpolate_q88.weights a b).1
          ∧ 0 ≤ (bilinear_interpolate_q88.weights a b).2.1
          ∧ 0 ≤ (bilinear_interpolate_q88.weights a b).2.2.1
          ∧ 0 ≤ (bilinear_interpolate_q88.weights a b).2.2.2)
        ∧ (254 ≤ (bilinear_interpolate_q88.weights a b).1
              + (bilinear_interpolate_q88.weights a b).2.1
              + (bilinear_interpolate_q88.weights a b).2.2.1
              + (bilinear_interpolate_q88.weights a b).2.2.2
          ∧ (bilinear_interpolate_q88.weights a b).1
              + (bilinear_interpolate_q88.weights a b).2.1
              + (bilinear_interpolate_q88.weights a b).2.2.1
              + (bilinear_interpolate_q88.weights a b).2.2.2 ≤ 256)
        ∧ (0 ≤ bilinear_interpolate_q88.unsaturated p00 p10 p01 p11 a b
          ∧ bilinear_interpolate_q88.unsaturated p00 p10 p01 p11 a b ≤ 255)
        ∧ bilinear_interpolate_q88 p00 p10 p01 p11 a b
            = bilinear_interpolate_q88.unsaturated p00 p10 p01 p11 a b
        ∧ bilinear_interpolate_q88.unsaturated p00 p10 p01 p11 a b
            ≤ ((max (max p00 p10) (max p01 p11) : Nat) : Int) := by
  obtain ⟨e00, e10, e01, e11⟩ := locals_weights memory x y
  obtain ⟨n00, n10, n01, n11, hs⟩ := raw_weights_partition
    (interpolatePixel.locals memory x y).a.value (interpolatePixel.locals memory x y).b.value
    ha0 ha1 hb0 hb1
  rw [← e00, ← e10, ← e01, ← e11] at hs
  rw [← e00] at n00
  rw [← e10] at n10
  rw [← e01] at n01
  rw [← e11] at n11
  have hp00 : (interpolatePixel.locals memory x y).p00 ≤ 255 := by
    rw [locals_p00]; exact readPixel_le memory hbytes _ _
  have hp10 : (interpolatePixel.locals memory x y).p10 ≤ 255 := by
    rw [locals_p10]; exact readPixel_le memory hbytes _ _
  have hp01 : (interpolatePixel.locals memory x y).p01 ≤ 255 := by
    rw [locals_p01]; exact readPixel_le memory hbytes _ _
  have hp11 : (interpolatePixel.locals memory x y).p11 ≤ 255 := by
    rw [locals_p11]; exact readPixel_le memory hbytes _ _
  obtain ⟨hsum, hws, hmax⟩ := weightedSum_of_partition _ _ _ _ _ _ _ _ hp00 hp10 hp01 hp11
    n00 n10 n01 n11 hs
  refine ⟨⟨n00, n10, n01, n11⟩, hsum, hws, ?_, hmax, ?_⟩
  · rw [locals_interp_sum_unsaturated]
    have h1 := hws.1
    have h2 := hws.2
    change 0 ≤ interpolatePixel.unsaturated memory x y at h1
    change interpolatePixel.unsaturated memory x y ≤ 255 at h2
    split_ifs <;> omega
  · intro p00 p10 p01 p11 a b h00 h10 h01 h11 a0 a1 b0 b1
    obtain ⟨ra0, ra1⟩ := fromFloat_raw_bounds a a0 a1
    obtain ⟨rb0, rb1⟩ := fromFloat_raw_bounds b b0 b1
    obtain ⟨m00, m10, m01, m11, ht⟩ := raw_weights_partition
      (FixedPoint.fromFloat a).value (FixedPoint.fromFloat b).value ra0 ra1 rb0 rb1
    have hw := weights_eq a b
    have f00 := congrArg (fun w => w.1) hw
    have f10 := congrArg (fun w => w.2.1) hw
    have f01 := congrArg (fun w => w.2.2.1) hw
    have f11 := congrArg (fun w => w.2.2.2) hw
    dsimp only at f00 f10 f01 f11
    rw [← f00, ← f10, ← f01, ← f11] at ht
    rw [← f00] at m00
    rw [← f10] at m10
    rw [← f01] at m01
    rw [← f11] at m11
    obtain ⟨tsum, tws, tmax⟩ := weightedSum_of_partition p00 p10 p01 p11 _ _ _ _
      h00 h10 h01 h11 m00 m10 m01 m11 ht
    refine ⟨⟨m00, m10, m01, m11⟩, tsum, tws, ?_, tmax⟩
    rw [bilinear_interpolate_q88_unsaturated]
    have h1 := tws.1
    have h2 := tws.2
    change 0 ≤ bilinear_interpolate_q88.unsaturated p00 p10 p01 p11 a b at h1
    change bilinear_interpolate_q88.unsaturated p00 p10 p01 p11 a b ≤ 255 at h2
    split_ifs <;> omega

/-- Witness of C21: the 2x2 bank `[10,20,30,40]` at (0.5,0.5), where both raw offsets
are 128, the weights are 64 each and the weighted sum is 25. -/
theorem C21_weights_sub_unit_partition_witness :
    ((∀ p ∈ bank2x2.data, p < 256)
      ∧ 0 ≤ (interpolatePixel.locals bank2x2 (1 / 2) (1 / 2)).a.getRaw
      ∧ (interpolatePixel.locals bank2x2 (1 / 2) (1 / 2)).a.getRaw ≤ 256
      ∧ 0 ≤ (interpolatePixel.locals bank2x2 (1 / 2) (1 / 2)).b.getRaw
      ∧ (interpolatePixel.locals bank2x2 (1 / 2) (1 / 2)).b.getRaw ≤ 256)
    ∧ (254 ≤ (interpolatePixel.locals bank2x2 (1 / 2) (1 / 2)).w00
          + (interpolatePixel.locals bank2x2 (1 / 2) (1 / 2)).w10
          + (interpolatePixel.locals bank2x2 (1 / 2) (1 / 2)).w01
          + (interpolatePixel.locals bank2x2 (1 / 2) (1 / 2)).w11
      ∧ (interpolatePixel.locals bank2x2 (1 / 2) (1 / 2)).w00
          + (interpolatePixel.locals bank2x2 (1 / 2) (1 / 2)).w10
          + (interpolatePixel.locals bank2x2 (1 / 2) (1 / 2)).w01
          + (interpolatePixel.locals bank2x2 (1 / 2) (1 / 2)).w11 ≤ 256)
    ∧ (interpolatePixel.locals bank2x2 (1 / 2) (1 / 2)).interp_sum
        = interpolatePixel.unsaturated bank2x2 (1 / 2) (1 / 2) :=
  have ha : (interpolatePixel.locals bank2x2 (1 / 2) (1 / 2)).a = ⟨128⟩ :=
    locals_bank2x2.2.2.2.2.1
  have hb : (interpolatePixel.locals bank2x2 (1 / 2) (1 / 2)).b = ⟨128⟩ :=
    locals_bank2x2.2.2.2.2.2
  have h0a : 0 ≤ (interpolatePixel.locals bank2x2 (1 / 2) (1 / 2)).a.getRaw := by
    rw [ha]; decide
  have h1a : (interpolatePixel.locals bank2x2 (1 / 2) (1 / 2)).a.getRaw ≤ 256 := by
    rw [ha]; decide
  have h0b : 0 ≤ (interpolatePixel.locals bank2x2 (1 / 2) (1 / 2)).b.getRaw := by
    rw [hb]; decide
  have h1b : (interpolatePixel.locals bank2x2 (1 / 2) (1 / 2)).b.getRaw ≤ 256 := by
    rw [hb]; decide
  have h := C21_weights_sub_unit_partition bank2x2 (1 / 2) (1 / 2) (by decide) h0a h1a h0b h1b
  ⟨⟨by decide, h0a, h1a, h0b, h1b⟩, h.2.1, h.2.2.2.1⟩

/-! ## Neighbour indices -/

theorem roundHalfEven_bounds (m : ℚ) (hm : 0 ≤ m) :
    0 ≤ roundHalfEven m ∧ (roundHalfEven m : ℚ) ≤ m + 1 := by
  have hf0 : 0 ≤ ⌊m⌋ := Int.floor_nonneg.mpr hm
  have hfl : (⌊m⌋ : ℚ) ≤ m := Int.floor_le m
  unfold roundHalfEven
  dsimp only
  split_ifs
  · exact ⟨hf0, by linarith⟩
  · exact ⟨by omega, by push_cast; linarith⟩
  · exact ⟨hf0, by linarith⟩
  · exact ⟨by omega, by push_cast; linarith⟩

/-- Rounding keeps a value that is not negative between 0 and its double. -/
theorem roundToPrec_bounds (p : Nat) (hp : 1 ≤ p) (q : ℚ) (hq : 0 ≤ q) :
    0 ≤ roundToPrec p q ∧ roundToPrec p q ≤ 2 * q := by
  unfold roundToPrec
  split
  · rename_i h0; subst h0; norm_num
  · rename_i h0
    have hpos : 0 < q := lt_of_le_of_ne hq (Ne.symm h0)
    have habs : |q| = q := abs_of_pos hpos
    rw [habs]
    have hu : (0 : ℚ) < (2 : ℚ) ^ (Int.log 2 q - ((p : Int) - 1)) := zpow_pos (by norm_num) _
    have hule : (2 : ℚ) ^ (Int.log 2 q - ((p : Int) - 1)) ≤ q := by
      have h1 : (2 : ℚ) ^ (Int.log 2 q - ((p : Int) - 1)) ≤ (2 : ℚ) ^ (Int.log 2 q) :=
        zpow_le_zpow_right₀ (by norm_num) (by omega)
      have h2 : ((2 : ℕ) : ℚ) ^ (Int.log 2 q) ≤ q := Int.zpow_log_le_self (by norm_num) hpos
      exact le_trans h1 (by exact_mod_cast h2)
    obtain ⟨r0, r1⟩ := roundHalfEven_bounds (q / (2 : ℚ) ^ (Int.log 2 q - ((p : Int) - 1)))
      (div_nonneg hq hu.le)
    dsimp only
    constructor
    · exact mul_nonneg (by exact_mod_cast r0) hu.le
    · have := mul_le_mul_of_nonneg_right r1 hu.le
      rw [add_mul, div_mul_cancel₀ _ hu.ne', one_mul] at this
      linarith

theorem toFloat32_bounds (q : ℚ) (hq : 0 ≤ q) : 0 ≤ toFloat32 q ∧ toFloat32 q ≤ 2 * q :=
  roundToPrec_bounds 24 (by decide) q hq

theorem toFloat64_bounds (q : ℚ) (hq : 0 ≤ q) : 0 ≤ toFloat64 q ∧ toFloat64 q ≤ 2 * q :=
  roundToPrec_bounds 53 (by decide) q hq

/-- The clamped index pair of `interpolatePixel` for a floor `f` and a size `w` that
both fit `int`. -/
theorem index_pair_bounds (f : Int) (w : Nat) (hf0 : 0 ≤ f) (hf1 : f < 2147483647)
    (hw0 : 1 ≤ w) (hw1 : w < 2147483648) :
    0 ≤ max 0 (min (toInt32 f) (toInt32 (toInt32 w - 1)))
    ∧ max 0 (min (toInt32 f) (toInt32 (toInt32 w - 1)))
        ≤ min (toInt32 (toInt32 f + 1)) (toInt32 (toInt32 w - 1))
    ∧ min (toInt32 (toInt32 f + 1)) (toInt32 (toInt32 w - 1)) ≤ (w : Int) - 1 := by
  unfold toInt32
  omega

theorem toUInt32_lt_of_le (z : Int) (w : Nat) (h0 : 0 ≤ z) (h1 : z ≤ (w : Int) - 1)
    (hw : w < 2147483648) : toUInt32 z < w := by
  unfold toUInt32
  omega

theorem ratio_bounds (inSize outSize : Nat) (hin0 : 1 ≤ inSize) (hin1 : inSize < 4294967296)
    (hout : outSize ≤ 4294967296) :
    0 ≤ processSequential.ratio inSize outSize
    ∧ processSequential.ratio inSize outSize * ((outSize - 1 : Nat) : ℚ)
        ≤ 2 * ((inSize - 1 : Nat) : ℚ) := by
  unfold processSequential.ratio
  split
  · rename_i h1
    have hsub : (inSize + U32 - 1) % U32 = inSize - 1 := by unfold U32; omega
    have hi : toFloat64 ((inSize - 1 : Nat) : ℚ) = ((inSize - 1 : Nat) : ℚ) :=
      toFloat64_natCast _ (by omega)
    have ho : toFloat64 ((outSize - 1 : Nat) : ℚ) = ((outSize - 1 : Nat) : ℚ) :=
      toFloat64_natCast _ (by omega)
    have hopos : (0 : ℚ) < ((outSize - 1 : Nat) : ℚ) := by
      have : 0 < outSize - 1 := by omega
      exact_mod_cast this
    have hq : (0 : ℚ) ≤ ((inSize - 1 : Nat) : ℚ) / ((outSize - 1 : Nat) : ℚ) :=
      div_nonneg (by positivity) hopos.le
    rw [hsub, hi, ho]
    obtain ⟨b0, b1⟩ := toFloat64_bounds _ hq
    refine ⟨b0, ?_⟩
    have := mul_le_mul_of_nonneg_right b1 hopos.le
    rw [mul_assoc, div_mul_cancel₀ _ hopos.ne'] at this
    exact this
  · exact ⟨le_refl 0, by rw [zero_mul]; positivity⟩

/-- The source coordinates `processSequential` issues are not negative and at most
eight times the input size. -/
theorem src_bounds (inSize outSize out : Nat) (hin0 : 1 ≤ inSize) (hin1 : inSize < 4294967296)
    (hout : outSize ≤ 4294967296) (ho : out < outSize) :
    0 ≤ processSequential.src (processSequential.ratio inSize outSize) out
    ∧ processSequential.src (processSequential.ratio inSize outSize) out
        ≤ 8 * ((inSize - 1 : Nat) : ℚ) := by
  obtain ⟨r0, r1⟩ := ratio_bounds inSize outSize hin0 hin1 hout
  have hcast : toFloat64 (out : ℚ) = out := toFloat64_natCast out (by omega)
  have hole : (out : ℚ) ≤ ((outSize - 1 : Nat) : ℚ) := by
    have : out ≤ outSize - 1 := by omega
    exact_mod_cast this
  have hprod0 : 0 ≤ processSequential.ratio inSize outSize * (out : ℚ) :=
    mul_nonneg r0 (by positivity)
  have hprod1 : processSequential.ratio inSize outSize * (out : ℚ)
      ≤ 2 * ((inSize - 1 : Nat) : ℚ) :=
    le_trans (mul_le_mul_of_nonneg_left hole r0) r1
  unfold processSequential.src
  rw [hcast]
  obtain ⟨d0, d1⟩ := toFloat64_bounds _ hprod0
  obtain ⟨f0, f1⟩ := toFloat32_bounds _ d0
  exact ⟨f0, by linarith⟩

/-- C22, amended. For a non-empty bank whose width and height are below 2^31 and a
source coordinate with `0 ≤ x < 2^31 - 1` and `0 ≤ y < 2^31 - 1`, the neighbour indices
of `interpolatePixel` satisfy `0 ≤ x0 ≤ x1 ≤ width - 1` and `0 ≤ y0 ≤ y1 ≤ height - 1`,
the out-of-bounds test of `readPixel` is false in each of the four calls, and each
neighbour is the entry of the buffer at its subscript. The coordinates that
`processSequential` issues for a bank of at most 2^28 by 2^28 samples (512 by 512 in
particular) are in that range. -/
theorem C22_neighbours_in_bounds (memory : MemoryBank) (x y : ℚ)
    (hw0 : 1 ≤ memory.width) (hw1 : memory.width < 2147483648)
    (hh0 : 1 ≤ memory.height) (hh1 : memory.height < 2147483648)
    (hx0 : 0 ≤ x) (hx1 : x < 2147483647) (hy0 : 0 ≤ y) (hy1 : y < 2147483647) :
    (0 ≤ (interpolatePixel.locals memory x y).x0
      ∧ (interpolatePixel.locals memory x y).x0 ≤ (interpolatePixel.locals memory x y).x1
      ∧ (interpolatePixel.locals memory x y).x1 ≤ (memory.width : Int) - 1)
    ∧ (0 ≤ (interpolatePixel.locals memory x y).y0
      ∧ (interpolatePixel.locals memory x y).y0 ≤ (interpolatePixel.locals memory x y).y1
      ∧ (interpolatePixel.locals memory x y).y1 ≤ (memory.height : Int) - 1)
    ∧ (¬ (toUInt32 (interpolatePixel.locals memory x y).x0 ≥ memory.width
          ∨ toUInt32 (interpolatePixel.locals memory x y).y0 ≥ memory.height)
      ∧ ¬ (toUInt32 (interpolatePixel.locals memory x y).x1 ≥ memory.width
          ∨ toUInt32 (interpolatePixel.locals memory x y).y0 ≥ memory.height)
      ∧ ¬ (toUInt32 (interpolatePixel.locals memory x y).x0 ≥ memory.width
          ∨ toUInt32 (interpolatePixel.locals memory x y).y1 ≥ memory.height)
      ∧ ¬ (toUInt32 (interpolatePixel.locals memory x y).x1 ≥ memory.width
          ∨ toUInt32 (interpolatePixel.locals memory x y).y1 ≥ memory.height))
    ∧ ((interpolatePixel.locals memory x y).p00
          = memory.data.getD (memory.offset (toUInt32 (interpolatePixel.locals memory x y).x0)
              (toUInt32 (interpolatePixel.locals memory x y).y0)) 0
      ∧ (interpolatePixel.locals memory x y).p10
          = memory.data.getD (memory.offset (toUInt32 (interpolatePixel.locals memory x y).x1)
              (toUInt32 (interpolatePixel.locals memory x y).y0)) 0
      ∧ (interpolatePixel.locals memory x y).p01
          = memory.data.getD (memory.offset (toUInt32 (interpolatePixel.locals memory x y).x0)
              (toUInt32 (interpolatePixel.locals memory x y).y1)) 0
      ∧ (interpolatePixel.locals memory x y).p11
          = memory.data.getD (memory.offset (toUInt32 (interpolatePixel.locals memory x y).x1)
              (toUInt32 (interpolatePixel.locals memory x y).y1)) 0)
    ∧ ∀ (outputWidth outputHeight outX outY : Nat),
        memory.width ≤ 268435456 → memory.height ≤ 268435456 →
        outputWidth ≤ 4294967296 → outputHeight ≤ 4294967296 →
        outX < outputWidth → outY < outputHeight →
        (0 ≤ processSequential.src (processSequential.ratio memory.getWidth outputWidth) outX
          ∧ processSequential.src (processSequential.ratio memory.getWidth outputWidth) outX
              < 2147483647)
        ∧ (0 ≤ processSequential.src (processSequential.ratio memory.getHeight outputHeight) outY
          ∧ processSequential.src (processSequential.ratio memory.getHeight outputHeight) outY
              < 2147483647) := by
  have hfx0 : 0 ≤ ⌊x⌋ := Int.floor_nonneg.mpr hx0
  have hfx1 : ⌊x⌋ < 2147483647 := Int.floor_lt.mpr (by push_cast; exact hx1)
  have hfy0 : 0 ≤ ⌊y⌋ := Int.floor_nonneg.mpr hy0
  have hfy1 : ⌊y⌋ < 2147483647 := Int.floor_lt.mpr (by push_cast; exact hy1)
  have hX := index_pair_bounds ⌊x⌋ memory.width hfx0 hfx1 hw0 hw1
  have hY := index_pair_bounds ⌊y⌋ memory.height hfy0 hfy1 hh0 hh1
  rw [← locals_x0 memory x y, ← locals_x1 memory x y] at hX
  rw [← locals_y0 memory x y, ← locals_y1 memory x y] at hY
  obtain ⟨X0, X01, X1⟩ := hX
  obtain ⟨Y0, Y01, Y1⟩ := hY
  have ux0 := toUInt32_lt_of_le _ memory.width X0 (le_trans X01 X1) hw1
  have ux1 := toUInt32_lt_of_le _ memory.width (le_trans X0 X01) X1 hw1
  have uy0 := toUInt32_lt_of_le _ memory.height Y0 (le_trans Y01 Y1) hh1
  have uy1 := toUInt32_lt_of_le _ memory.height (le_trans Y0 Y01) Y1 hh1
  have n00 : ¬ (toUInt32 (interpolatePixel.locals memory x y).x0 ≥ memory.width
      ∨ toUInt32 (interpolatePixel.locals memory x y).y0 ≥ memory.height) := by omega
  have n10 : ¬ (toUInt32 (interpolatePixel.locals memory x y).x1 ≥ memory.width
      ∨ toUInt32 (interpolatePixel.locals memory x y).y0 ≥ memory.height) := by omega
  have n01 : ¬ (toUInt32 (interpolatePixel.locals memory x y).x0 ≥ memory.width
      ∨ toUInt32 (interpolatePixel.locals memory x y).y1 ≥ memory.height) := by omega
  have n11 : ¬ (toUInt32 (interpolatePixel.locals memory x y).x1 ≥ memory.width
      ∨ toUInt32 (interpolatePixel.locals memory x y).y1 ≥ memory.height) := by omega
  refine ⟨⟨X0, X01, X1⟩, ⟨Y0, Y01, Y1⟩, ⟨n00, n10, n01, n11⟩, ⟨?_, ?_, ?_, ?_⟩, ?_⟩
  · rw [locals_p00]; unfold MemoryBank.readPixel; rw [if_neg n00]
  · rw [locals_p10]; unfold MemoryBank.readPixel; rw [if_neg n10]
  · rw [locals_p01]; unfold MemoryBank.readPixel; rw [if_neg n01]
  · rw [locals_p11]; unfold MemoryBank.readPixel; rw [if_neg n11]
  · intro outputWidth outputHeight outX outY hw hh hoW hoH hX hY
    obtain ⟨a0, a1⟩ := src_bounds memory.width outputWidth outX hw0 (by omega) hoW hX
    obtain ⟨b0, b1⟩ := src_bounds memory.height outputHeight outY hh0 (by omega) hoH hY
    have cw : ((memory.width - 1 : Nat) : ℚ) ≤ 268435455 := by
      have : memory.width - 1 ≤ 268435455 := by omega
      exact_mod_cast this
    have ch : ((memory.height - 1 : Nat) : ℚ) ≤ 268435455 := by
      have : memory.height - 1 ≤ 268435455 := by omega
      exact_mod_cast this
    exact ⟨⟨a0, by unfold MemoryBank.getWidth; linarith⟩,
      ⟨b0, by unfold MemoryBank.getHeight; linarith⟩⟩

/-- Witness of C22: the 2x2 bank `[10,20,30,40]` at (0.5, 1.5), where `x0 = 0`,
`x1 = 1` and `y0 = y1 = 1`. -/
theorem C22_neighbours_in_bounds_witness :
    (1 ≤ bank2x2.width ∧ bank2x2.width < 2147483648 ∧ 1 ≤ bank2x2.height
      ∧ bank2x2.height < 2147483648 ∧ (0 : ℚ) ≤ 1 / 2 ∧ (1 / 2 : ℚ) < 2147483647
      ∧ (0 : ℚ) ≤ 3 / 2 ∧ (3 / 2 : ℚ) < 2147483647)
    ∧ (0 ≤ (interpolatePixel.locals bank2x2 (1 / 2) (3 / 2)).x0
      ∧ (interpolatePixel.locals bank2x2 (1 / 2) (3 / 2)).x0
          ≤ (interpolatePixel.locals bank2x2 (1 / 2) (3 / 2)).x1
      ∧ (interpolatePixel.locals bank2x2 (1 / 2) (3 / 2)).x1 ≤ (bank2x2.width : Int) - 1)
    ∧ (0 ≤ (interpolatePixel.locals bank2x2 (1 / 2) (3 / 2)).y0
      ∧ (interpolatePixel.locals bank2x2 (1 / 2) (3 / 2)).y0
          ≤ (interpolatePixel.locals bank2x2 (1 / 2) (3 / 2)).y1
      ∧ (interpolatePixel.locals bank2x2 (1 / 2) (3 / 2)).y1 ≤ (bank2x2.height : Int) - 1) :=
  have h := C22_neighbours_in_bounds bank2x2 (1 / 2) (3 / 2) (by decide) (by decide)
    (by decide) (by decide) (by norm_num) (by norm_num) (by norm_num) (by norm_num)
  ⟨⟨by decide, by decide, by decide, by decide, by norm_num, by norm_num, by norm_num,
    by norm_num⟩, h.1, h.2.1⟩

/-- Counterexample to C22 as stated. The bank of width `2^31 + 1` and height 1 is not
empty and (0,0) is a source coordinate with `x ≥ 0`, `y ≥ 0`, yet
`static_cast<int>(width) - 1` is `-2^31`, so `x1 = -2^31 < x0 = 0`. On the 2x2 bank
the coordinate `x = 2^31` does not fit `int` (undefined in C++, wrapped in the
model): `x1` is negative and the second `readPixel` call takes the sentinel branch. -/
theorem C22_counterexample :
    (1 ≤ bankWide.width ∧ 1 ≤ bankWide.height
      ∧ bankWide.data.length = bankWide.width * bankWide.height)
    ∧ ((interpolatePixel.locals bankWide 0 0).x0 = 0
      ∧ (interpolatePixel.locals bankWide 0 0).x1 = -2147483648
      ∧ ¬ ((interpolatePixel.locals bankWide 0 0).x0 ≤ (interpolatePixel.locals bankWide 0 0).x1))
    ∧ ((interpolatePixel.locals bank2x2 2147483648 0).x1 = -2147483647
      ∧ ¬ (0 ≤ (interpolatePixel.locals bank2x2 2147483648 0).x1)
      ∧ (toUInt32 (interpolatePixel.locals bank2x2 2147483648 0).x1 ≥ bank2x2.width
          ∨ toUInt32 (interpolatePixel.locals bank2x2 2147483648 0).y0 ≥ bank2x2.height)) := by
  have hx0 : (interpolatePixel.locals bankWide 0 0).x0 = 0 := by
    rw [locals_x0, Int.floor_zero]; decide
  have hx1 : (interpolatePixel.locals bankWide 0 0).x1 = -2147483648 := by
    rw [locals_x1, Int.floor_zero]; decide
  have hfl : ⌊(2147483648 : ℚ)⌋ = 2147483648 := by
    simp
  have hx1' : (interpolatePixel.locals bank2x2 2147483648 0).x1 = -2147483647 := by
    rw [locals_x1, hfl]; decide
  refine ⟨⟨by decide, by decide, ?_⟩, ⟨hx0, hx1, ?_⟩, ⟨hx1', ?_, ?_⟩⟩
  · show (List.replicate 2147483649 0).length = 2147483649 * 1
    rw [List.length_replicate]
  · rw [hx0, hx1]; decide
  · rw [hx1']; decide
  · left; rw [hx1']; decide

end Bilinear
